import Mathlib

/-
Verification development for the `squid-space` serial bootloader core
(`crates/dabble/src/icd.rs` and `crates/dabble/src/machine.rs`).

Bytes are modelled as `Nat` (values < 256 on every real wire), `u32` values as
`Nat` with wrapping arithmetic written explicitly as `% 2 ^ 32`, and byte
buffers as `List Nat`.  The third-party crates the source calls into are
modelled from their documented behaviour where their sources are not part of
this repository:

* `crc` with `CRC_32_CKSUM` (poly `0x04C11DB7`, init `0`, no reflection,
  xor-out `0xFFFFFFFF`), as fixed by `squid-boot/src/lib.rs`;
* `postcard` (varint integers, length-prefixed byte slices, varint-tagged
  enums, concatenated struct fields);
* `cobs` consistent-overhead byte stuffing with `0x00` terminator.
-/

set_option maxHeartbeats 1000000
set_option maxRecDepth 8000

namespace Squid

/-- Decidable equality for `Except`, used to evaluate machine results on
concrete inputs. -/
instance {e a : Type} [DecidableEq e] [DecidableEq a] : DecidableEq (Except e a)
  | .error x, .error y =>
    if h : x = y then .isTrue (h ▸ rfl) else .isFalse (by simp [h])
  | .error _, .ok _ => .isFalse (by simp)
  | .ok _, .error _ => .isFalse (by simp)
  | .ok x, .ok y =>
    if h : x = y then .isTrue (h ▸ rfl) else .isFalse (by simp [h])

/-! ## u32 arithmetic helpers -/

/-- Wrapping `u32` addition (release-mode Rust `+`). -/
def add32 (a b : Nat) : Nat := (a + b) % 2 ^ 32

/-- Wrapping `u32` subtraction `a - b` (release-mode Rust `-`). -/
def sub32 (a b : Nat) : Nat := (a + 2 ^ 32 - b % 2 ^ 32) % 2 ^ 32

/-- Models `u32::checked_add`. -/
def checkedAdd32 (a b : Nat) : Option Nat :=
  if a + b < 2 ^ 32 then some (a + b) else none

/-- Models `u32::saturating_add`. -/
def satAdd32 (a b : Nat) : Nat := min (a + b) (2 ^ 32 - 1)

/-- Little-endian bytes of a `u32` (`u32::to_le_bytes`). -/
def le32 (n : Nat) : List Nat :=
  [n % 256, n / 256 % 256, n / 65536 % 256, n / 16777216 % 256]

/-- Reads a `u32` from the first four bytes of a list (`u32::from_le_bytes`). -/
def leU32 (l : List Nat) : Nat :=
  l.getD 0 0 + l.getD 1 0 * 256 + l.getD 2 0 * 65536 + l.getD 3 0 * 16777216

/-- Models `split_u32le` from `icd.rs`. -/
def splitU32le (sli : List Nat) : Option (Nat × List Nat) :=
  if sli.length < 4 then none else some (leU32 (sli.take 4), sli.drop 4)

/-! ## CRC-32/CKSUM (`crc` crate, `Crc::<u32>::new(&CRC_32_CKSUM)`)

The digest register is a `Nat` < `2 ^ 32`; `Digest::update` folds bytes with
the bitwise MSB-first algorithm, `Digest::finalize` applies the xor-out. -/

/-- CRC-32/CKSUM generator polynomial. -/
def crcPoly : Nat := 0x04C11DB7

/-- One shift-and-conditionally-xor step of the MSB-first CRC. -/
def crcStep (r : Nat) : Nat :=
  if r.testBit 31 then (r * 2) % 2 ^ 32 ^^^ crcPoly else (r * 2) % 2 ^ 32

/-- Fold one byte into the CRC register. -/
def crcByte (r b : Nat) : Nat := crcStep^[8] ((r ^^^ b % 256 * 16777216) % 2 ^ 32)

/-- Unrolled form of `crcByte`, used to evaluate CRC values on concrete
inputs. -/
theorem crcByte_eq (r b : Nat) : crcByte r b =
    crcStep (crcStep (crcStep (crcStep (crcStep (crcStep (crcStep (crcStep
      ((r ^^^ b % 256 * 16777216) % 2 ^ 32)))))))) := rfl

/-- Models `Digest::update` on a byte slice. -/
def crcUpdate (r : Nat) (data : List Nat) : Nat := data.foldl crcByte r

/-- Models `Digest::finalize` (xor-out `0xFFFFFFFF`). -/
def crcFinalize (r : Nat) : Nat := r ^^^ 0xFFFFFFFF

/-- Models `CRC.checksum(data)`: fresh digest, update, finalize. -/
def crc32 (data : List Nat) : Nat := crcFinalize (crcUpdate 0 data)

theorem crcStep_lt (r : Nat) : crcStep r < 2 ^ 32 := by
  unfold crcStep crcPoly
  split
  · exact Nat.xor_lt_two_pow (Nat.mod_lt _ (by norm_num)) (by norm_num)
  · exact Nat.mod_lt _ (by norm_num)

theorem crcByte_lt (r b : Nat) : crcByte r b < 2 ^ 32 := by
  unfold crcByte
  rw [show (8 : Nat) = 7 + 1 by rfl, Function.iterate_succ_apply']
  exact crcStep_lt _

theorem crcUpdate_lt (r : Nat) (data : List Nat) (h : r < 2 ^ 32) :
    crcUpdate r data < 2 ^ 32 := by
  induction data generalizing r with
  | nil => exact h
  | cons b rest ih => exact ih _ (crcByte_lt _ _)

theorem crcFinalize_lt (r : Nat) (h : r < 2 ^ 32) : crcFinalize r < 2 ^ 32 :=
  Nat.xor_lt_two_pow h (by norm_num)

theorem crc32_lt (data : List Nat) : crc32 data < 2 ^ 32 :=
  crcFinalize_lt _ (crcUpdate_lt _ _ (by norm_num))

theorem crcUpdate_append (r : Nat) (a b : List Nat) :
    crcUpdate r (a ++ b) = crcUpdate (crcUpdate r a) b :=
  List.foldl_append ..

theorem le32_length (n : Nat) : (le32 n).length = 4 := rfl

theorem leU32_le32 (n : Nat) (h : n < 2 ^ 32) : leU32 (le32 n) = n := by
  simp only [le32, leU32, List.getD]
  simp only [List.get?_eq_getElem?, List.getElem?_cons_zero, List.getElem?_cons_succ,
    Option.getD_some]
  omega

/-! ## postcard varints

`postcard` encodes `u16/u32/u64/usize` as LEB128 varints.  The deserializer
(`try_take_varint_*`) reads at most `varint_max` bytes, accumulates the 7-bit
groups into a fixed-width register (shifted-out bits are discarded), and
rejects a final byte that would overflow the width. -/

/-- Models postcard `varint_max::<T>()` for a `T` of bit width `w`. -/
def varintMax (w : Nat) : Nat := (w + 6) / 7

/-- Models postcard `max_of_last_byte::<T>()`. -/
def maxOfLastByte (w : Nat) : Nat := 2 ^ (w % 7)

/-- Models the postcard `try_take_varint` loop for bit width `w`, at loop
index `i` with accumulator `out`. -/
def takeVarintAux (w : Nat) : Nat → Nat → List Nat → Option (Nat × List Nat)
  | _, _, [] => none
  | i, out, b :: rest =>
    if i < varintMax w then
      if b < 128 then
        if i = varintMax w - 1 ∧ maxOfLastByte w ≤ b then none
        else some (out + b % 128 * 2 ^ (7 * i) % 2 ^ w, rest)
      else takeVarintAux w (i + 1) (out + b % 128 * 2 ^ (7 * i) % 2 ^ w) rest
    else none

/-- Recursion core of the varint serializer; the fuel argument only bounds
the recursion depth and `putVarint` always supplies enough of it. -/
def putVarintAux : Nat → Nat → List Nat
  | 0, n => [n]
  | fuel + 1, n => if n < 128 then [n] else (n % 128 + 128) :: putVarintAux fuel (n / 128)

/-- Models the postcard varint serializer (identical for every width): emit
seven bits per byte, least significant group first, continuation bit `0x80`. -/
def putVarint (n : Nat) : List Nat := putVarintAux n n

theorem putVarintAux_congr : ∀ {n : Nat} (f1 f2 : Nat), n ≤ f1 → n ≤ f2 →
    putVarintAux f1 n = putVarintAux f2 n := by
  intro n
  induction n using Nat.strong_induction_on with
  | _ n ih =>
    intro f1 f2 h1 h2
    match f1, f2 with
    | 0, 0 => rfl
    | 0, f2 + 1 =>
      have : n = 0 := by omega
      subst this
      simp [putVarintAux]
    | f1 + 1, 0 =>
      have : n = 0 := by omega
      subst this
      simp [putVarintAux]
    | f1 + 1, f2 + 1 =>
      by_cases h : n < 128
      · simp [putVarintAux, h]
      · have hd : n / 128 < n := Nat.div_lt_self (by omega) (by omega)
        simp only [putVarintAux, if_neg h]
        rw [ih (n / 128) hd f1 f2 (by omega) (by omega)]

theorem putVarint_small {n : Nat} (h : n < 128) : putVarint n = [n] := by
  unfold putVarint
  match n with
  | 0 => rfl
  | n + 1 => simp [putVarintAux, h]

theorem putVarint_big {n : Nat} (h : ¬ n < 128) :
    putVarint n = (n % 128 + 128) :: putVarint (n / 128) := by
  unfold putVarint
  match n, h with
  | n + 1, h =>
    simp only [putVarintAux, if_neg h]
    exact congrArg _ (putVarintAux_congr _ _ (by omega) le_rfl)

/-- Deserialize a `u32` varint (`try_take_varint_u32`). -/
def takeU32 (l : List Nat) : Option (Nat × List Nat) := takeVarintAux 32 0 0 l

/-- Deserialize a `usize`/`u64` varint (64-bit host). -/
def takeUsize (l : List Nat) : Option (Nat × List Nat) := takeVarintAux 64 0 0 l

theorem takeVarintAux_length {w : Nat} :
    ∀ {l : List Nat} {i out n r}, takeVarintAux w i out l = some (n, r) →
      r.length < l.length := by
  intro l
  induction l with
  | nil => intro i out n r h; simp [takeVarintAux] at h
  | cons b rest ih =>
    intro i out n r h
    simp only [takeVarintAux] at h
    split at h
    · split at h
      · split at h
        · exact absurd h (by simp)
        · obtain ⟨-, rfl⟩ := Prod.mk.injEq .. ▸ Option.some.injEq .. ▸ h
          simp
      · have := ih h
        simp; omega
    · exact absurd h (by simp)

theorem putVarint_ne_nil (n : Nat) : putVarint n ≠ [] := by
  by_cases h : n < 128
  · rw [putVarint_small h]; simp
  · rw [putVarint_big h]; simp

theorem takeVarintAux_putVarint {w : Nat}
    (hw : 2 ^ (w - 7 * (varintMax w - 1)) ≤ maxOfLastByte w) :
    ∀ n i out r, i < varintMax w → n < 2 ^ (w - 7 * i) →
      takeVarintAux w i out (putVarint n ++ r) = some (out + n * 2 ^ (7 * i), r) := by
  intro n
  induction n using Nat.strong_induction_on with
  | _ n ih =>
    intro i out r hi hn
    have h7i : 7 * i < w := by
      have : 7 * i ≤ 7 * (varintMax w - 1) := by
        have := hi; unfold varintMax at this ⊢; omega
      have hpos : 0 < 2 ^ (w - 7 * (varintMax w - 1)) := Nat.pos_pow_of_pos _ (by norm_num)
      have hlast : 0 < maxOfLastByte w := lt_of_lt_of_le hpos hw
      -- from n < 2 ^ (w - 7*i) and n could be 0; need 7*i < w directly:
      unfold varintMax at hi
      omega
    by_cases h128 : n < 128
    · rw [putVarint_small h128]
      have hmod : n % 128 = n := Nat.mod_eq_of_lt h128
      have hfit : n * 2 ^ (7 * i) < 2 ^ w := by
        calc n * 2 ^ (7 * i) < 2 ^ (w - 7 * i) * 2 ^ (7 * i) :=
              (Nat.mul_lt_mul_right (Nat.pos_pow_of_pos _ (by norm_num))).mpr hn
        _ = 2 ^ w := by rw [← pow_add]; congr 1; omega
      have hlastok : ¬(i = varintMax w - 1 ∧ maxOfLastByte w ≤ n) := by
        rintro ⟨rfl, hle⟩
        exact absurd hn (by omega)
      simp only [List.cons_append, List.nil_append, List.append_eq, takeVarintAux, if_pos hi,
        if_pos h128, if_neg hlastok, hmod, Nat.mod_eq_of_lt hfit]
    · rw [putVarint_big h128]
      have hge : (128 : Nat) ≤ n := by omega
      have h7 : 7 < w - 7 * i := by
        have h2 : (2 : Nat) ^ 7 < 2 ^ (w - 7 * i) := by
          have h27 : (2 : Nat) ^ 7 = 128 := by norm_num
          omega
        exact (Nat.pow_lt_pow_iff_right (by norm_num)).mp h2
      have hb : ¬(n % 128 + 128 < 128) := by omega
      have hfit : n % 128 * 2 ^ (7 * i) < 2 ^ w := by
        calc n % 128 * 2 ^ (7 * i) < 2 ^ 7 * 2 ^ (7 * i) :=
              (Nat.mul_lt_mul_right (Nat.pos_pow_of_pos _ (by norm_num))).mpr (by omega)
        _ ≤ 2 ^ w := by rw [← pow_add]; exact Nat.pow_le_pow_right (by norm_num) (by omega)
      have hi' : i + 1 < varintMax w := by unfold varintMax; omega
      have hn' : n / 128 < 2 ^ (w - 7 * (i + 1)) := by
        have hx : n < 2 ^ (w - 7 * (i + 1)) * 128 := by
          have hy : (2 : Nat) ^ (w - 7 * (i + 1)) * 128 = 2 ^ (w - 7 * i) := by
            rw [show (128 : Nat) = 2 ^ 7 by norm_num, ← pow_add]
            congr 1; omega
          omega
        omega
      have hrec := ih (n / 128) (Nat.div_lt_self (by omega) (by omega)) (i + 1)
        (out + n % 128 * 2 ^ (7 * i)) r hi' hn'
      simp only [List.cons_append, List.append_eq, takeVarintAux, if_pos hi, if_neg hb]
      rw [show (n % 128 + 128) % 128 = n % 128 by omega, Nat.mod_eq_of_lt hfit, hrec]
      have hmd : n % 128 + 128 * (n / 128) = n := Nat.mod_add_div n 128
      have key : out + n % 128 * 2 ^ (7 * i) + n / 128 * 2 ^ (7 * (i + 1))
          = out + n * 2 ^ (7 * i) := by
        calc out + n % 128 * 2 ^ (7 * i) + n / 128 * 2 ^ (7 * (i + 1))
            = out + (n % 128 + 128 * (n / 128)) * 2 ^ (7 * i) := by
              rw [show 7 * (i + 1) = 7 * i + 7 by ring, pow_add]
              ring
        _ = out + n * 2 ^ (7 * i) := by rw [hmd]
      rw [key]

theorem takeU32_putVarint {n : Nat} (r : List Nat) (h : n < 2 ^ 32) :
    takeU32 (putVarint n ++ r) = some (n, r) := by
  have := takeVarintAux_putVarint (w := 32) (by norm_num [varintMax, maxOfLastByte])
    n 0 0 r (by norm_num [varintMax]) (by simpa using h)
  simpa [takeU32] using this

theorem takeUsize_putVarint {n : Nat} (r : List Nat) (h : n < 2 ^ 64) :
    takeUsize (putVarint n ++ r) = some (n, r) := by
  have := takeVarintAux_putVarint (w := 64) (by norm_num [varintMax, maxOfLastByte])
    n 0 0 r (by norm_num [varintMax]) (by simpa using h)
  simpa [takeUsize] using this

/-! ## Settings records (`icd::Setting`, `icd::SettingVal`) and their postcard codec -/

/-- Mirrors `icd::SettingVal`.  `F32` carries the IEEE-754 bit pattern of the
`f32`: the codec only moves its four raw little-endian bytes and the state
machine never computes with the value, so the bit pattern is the faithful
representation. -/
inductive SettingVal
  | U32 (v : Nat)
  | F32 (bits : Nat)
  | ByteSlice (bs : List Nat)
  | AsciiSlice (bs : List Nat)
deriving DecidableEq

/-- Mirrors `icd::Setting`. -/
structure Setting where
  name_ascii : List Nat
  val : SettingVal
deriving DecidableEq

/-- Postcard encoding of a byte slice: varint length, then the bytes. -/
def putBytes (l : List Nat) : List Nat := putVarint l.length ++ l

/-- Postcard decoding of a byte slice. -/
def takeBytes (l : List Nat) : Option (List Nat × List Nat) :=
  match takeUsize l with
  | none => none
  | some (n, r) => if n ≤ r.length then some (r.take n, r.drop n) else none

/-- Postcard decoding of an `f32` (four raw little-endian bytes). -/
def takeF32 (l : List Nat) : Option (Nat × List Nat) :=
  if 4 ≤ l.length then some (leU32 (l.take 4), l.drop 4) else none

/-- Postcard encoding of a `SettingVal` (varint variant tag, then payload). -/
def putSettingVal : SettingVal → List Nat
  | .U32 v => putVarint 0 ++ putVarint v
  | .F32 bits => putVarint 1 ++ le32 bits
  | .ByteSlice bs => putVarint 2 ++ putBytes bs
  | .AsciiSlice bs => putVarint 3 ++ putBytes bs

/-- Postcard decoding of a `SettingVal`. -/
def takeSettingVal (l : List Nat) : Option (SettingVal × List Nat) :=
  match takeU32 l with
  | none => none
  | some (0, r) => (takeU32 r).map fun p => (.U32 p.1, p.2)
  | some (1, r) => (takeF32 r).map fun p => (.F32 p.1, p.2)
  | some (2, r) => (takeBytes r).map fun p => (.ByteSlice p.1, p.2)
  | some (3, r) => (takeBytes r).map fun p => (.AsciiSlice p.1, p.2)
  | some _ => none

/-- Postcard encoding of a `Setting` (fields in declaration order). -/
def putSetting (s : Setting) : List Nat := putBytes s.name_ascii ++ putSettingVal s.val

/-- Postcard `take_from_bytes::<Setting>`: decode one record, return the rest. -/
def takeSetting (l : List Nat) : Option (Setting × List Nat) :=
  match takeBytes l with
  | none => none
  | some (name, r) =>
    match takeSettingVal r with
    | none => none
    | some (v, r2) => some (⟨name, v⟩, r2)

theorem takeBytes_length {l bs r : List Nat} (h : takeBytes l = some (bs, r)) :
    r.length < l.length := by
  unfold takeBytes at h
  split at h
  · exact absurd h (by simp)
  · rename_i n r1 heq
    split at h
    · obtain ⟨-, rfl⟩ := Prod.mk.injEq .. ▸ Option.some.injEq .. ▸ h
      have h1 := takeVarintAux_length heq
      have := List.length_drop n r1
      omega
    · exact absurd h (by simp)

theorem takeF32_length {l : List Nat} {b : Nat} {r : List Nat}
    (h : takeF32 l = some (b, r)) : r.length < l.length := by
  unfold takeF32 at h
  split at h
  · obtain ⟨-, rfl⟩ := Prod.mk.injEq .. ▸ Option.some.injEq .. ▸ h
    have := List.length_drop 4 l
    omega
  · exact absurd h (by simp)

theorem takeSettingVal_length {l : List Nat} {v : SettingVal} {r : List Nat}
    (h : takeSettingVal l = some (v, r)) : r.length < l.length := by
  unfold takeSettingVal at h
  split at h
  · exact absurd h (by simp)
  all_goals rename_i heq
  case _ r1 =>
    rcases hm : takeU32 r1 with - | p
    · rw [hm] at h; exact absurd h (by simp)
    · rw [hm] at h
      obtain ⟨-, rfl⟩ := Prod.mk.injEq .. ▸ Option.some.injEq .. ▸ h
      exact lt_trans (takeVarintAux_length hm) (takeVarintAux_length heq)
  case _ r1 =>
    rcases hm : takeF32 r1 with - | p
    · rw [hm] at h; exact absurd h (by simp)
    · rw [hm] at h
      obtain ⟨-, rfl⟩ := Prod.mk.injEq .. ▸ Option.some.injEq .. ▸ h
      exact lt_trans (takeF32_length hm) (takeVarintAux_length heq)
  case _ r1 =>
    rcases hm : takeBytes r1 with - | p
    · rw [hm] at h; exact absurd h (by simp)
    · rw [hm] at h
      obtain ⟨-, rfl⟩ := Prod.mk.injEq .. ▸ Option.some.injEq .. ▸ h
      exact lt_trans (takeBytes_length hm) (takeVarintAux_length heq)
  case _ r1 =>
    rcases hm : takeBytes r1 with - | p
    · rw [hm] at h; exact absurd h (by simp)
    · rw [hm] at h
      obtain ⟨-, rfl⟩ := Prod.mk.injEq .. ▸ Option.some.injEq .. ▸ h
      exact lt_trans (takeBytes_length hm) (takeVarintAux_length heq)
  case _ => exact absurd h (by simp)

theorem takeSetting_length {l : List Nat} {sr : Setting × List Nat}
    (h : takeSetting l = some sr) : sr.2.length < l.length := by
  unfold takeSetting at h
  split at h
  · exact absurd h (by simp)
  · rename_i name r1 heq
    split at h
    · exact absurd h (by simp)
    · rename_i v r2 heq2
      obtain rfl := Option.some.injEq .. ▸ h
      exact lt_trans (takeSettingVal_length heq2) (takeBytes_length heq)

/-- Recursion core of the settings iterator; every `take_from_bytes` success
consumes at least one byte, so `settingsIterList` always supplies enough
fuel. -/
def settingsIterAux : Nat → List Nat → List Setting
  | 0, _ => []
  | fuel + 1, remain =>
    match takeSetting remain with
    | none => []
    | some sr => sr.1 :: settingsIterAux fuel sr.2

/-- The sequence of records yielded by `SettingsIter` (`Iterator::next` calls
`take_from_bytes` repeatedly and stops at the first decode failure). -/
def settingsIterList (remain : List Nat) : List Setting :=
  settingsIterAux remain.length remain

theorem settingsIterAux_congr : ∀ (f1 : Nat) {remain : List Nat} (f2 : Nat),
    remain.length ≤ f1 → remain.length ≤ f2 →
    settingsIterAux f1 remain = settingsIterAux f2 remain := by
  intro f1
  induction f1 with
  | zero =>
    intro remain f2 h1 h2
    have hr : remain = [] := by
      cases remain with
      | nil => rfl
      | cons a as => simp at h1
    subst hr
    cases f2 with
    | zero => rfl
    | succ f2 => rfl
  | succ f1 ih =>
    intro remain f2 h1 h2
    rcases htk : takeSetting remain with - | sr
    · cases remain with
      | nil =>
        cases f2 with
        | zero => rfl
        | succ f2 => simp [settingsIterAux, htk]
      | cons a as =>
        have : 1 ≤ f2 := by simp at h2; omega
        obtain ⟨f2', rfl⟩ : ∃ k, f2 = k + 1 := ⟨f2 - 1, by omega⟩
        simp [settingsIterAux, htk]
    · have hlt := takeSetting_length htk
      have hne : remain ≠ [] := by
        intro hc
        subst hc
        simp at hlt
      have : 1 ≤ f2 := by
        cases remain with
        | nil => exact absurd rfl hne
        | cons a as => simp at h2; omega
      obtain ⟨f2', rfl⟩ : ∃ k, f2 = k + 1 := ⟨f2 - 1, by omega⟩
      simp only [settingsIterAux, htk]
      rw [ih f2' (by omega) (by omega)]

theorem settingsIterList_eq (remain : List Nat) :
    settingsIterList remain = match takeSetting remain with
      | none => []
      | some sr => sr.1 :: settingsIterList sr.2 := by
  unfold settingsIterList
  rcases htk : takeSetting remain with - | sr
  · cases remain with
    | nil => rfl
    | cons a as => simp [settingsIterAux, htk]
  · have hlt := takeSetting_length htk
    have : 1 ≤ remain.length := by omega
    obtain ⟨b, rest, rfl⟩ : ∃ b rest, remain = b :: rest := by
      cases remain with
      | nil => simp at this
      | cons b rest => exact ⟨b, rest, rfl⟩
    simp only [List.length_cons, settingsIterAux, htk]
    rw [settingsIterAux_congr _ sr.2.length (by simp at hlt; omega) le_rfl]

/-- Models `icd::settings_from_raw`, returning the iterator's backing slice
(the CRC-validated settings payload). -/
def settingsFromRaw (sli : List Nat) : Option (List Nat) :=
  match splitU32le sli with
  | none => none
  | some (expCrc, sli1) =>
    match splitU32le sli1 with
    | none => none
    | some (expLen, sli2) =>
      if expLen ≤ sli2.length then
        if crc32 (le32 expLen ++ sli2.take expLen) = expCrc then some (sli2.take expLen)
        else none
      else none

/-- Models `icd::settings_to_vec` (host-side helper): serialize the records,
prepend the little-endian length and the CRC over `length ‖ payload`.  The
`% 2 ^ 32` is the `as u32` cast of `ser.len()`. -/
def settingsToVec (items : List Setting) : List Nat :=
  le32 (crc32 (le32 ((items.map putSetting).flatten.length % 2 ^ 32)
      ++ (items.map putSetting).flatten))
    ++ le32 ((items.map putSetting).flatten.length % 2 ^ 32)
    ++ (items.map putSetting).flatten

/-! ## Bootable status, parameters, app-info extraction (`machine.rs`) -/

/-- Mirrors `machine::Bootable`.  `Yes.length` is the Rust `usize` field. -/
inductive Bootable
  | Unsure
  | NoMissingSettings
  | NoDuplicateSettings
  | NoInvalidSettings
  | NoInvalidCrc
  | Yes (crc32 : Nat) (length : Nat)
deriving DecidableEq

/-- Mirrors `icd::Parameters`; all fields are `u32` values. -/
structure Parameters where
  settings_max : Nat
  data_chunk_size : Nat
  valid_flash_range : Nat × Nat
  valid_app_range : Nat × Nat
  read_max : Nat
deriving DecidableEq

/-- The `stm32g031_params` constant from `machine.rs`. -/
def stm32g031_params : Parameters where
  settings_max := 2 * 1024 - 4
  data_chunk_size := 2 * 1024
  valid_flash_range := (0, 64 * 1024)
  valid_app_range := (16 * 1024, 64 * 1024)
  read_max := 2 * 1024

/-- Models `u32::is_power_of_two` (`count_ones() == 1`), via the standard
single-set-bit test. -/
def isPow2 (n : Nat) : Bool := n != 0 && n &&& (n - 1) == 0

/-- Byte string of `b"app_len"`. -/
def appLenName : List Nat := [97, 112, 112, 95, 108, 101, 110]

/-- Byte string of `b"app_crc"`. -/
def appCrcName : List Nat := [97, 112, 112, 95, 99, 114, 99]

/-- The record-scanning loop of `get_app_info`: recognise unique
`app_len`/`app_crc` `U32` records, early-return on a duplicate. -/
def appInfoLoop : List Setting → Option Nat → Option Nat →
    Except Bootable (Option Nat × Option Nat)
  | [], al, ac => .ok (al, ac)
  | ⟨n, .U32 v⟩ :: rest, al, ac =>
    if n = appLenName then
      if al.isSome then .error .NoDuplicateSettings else appInfoLoop rest (some v) ac
    else if n = appCrcName then
      if ac.isSome then .error .NoDuplicateSettings else appInfoLoop rest al (some v)
    else appInfoLoop rest al ac
  | _ :: rest, al, ac => appInfoLoop rest al ac

/-- Models `machine::get_app_info` (the `debug_assertions` block only checks
the `Parameters` themselves and is captured by `Parameters.wf` below). -/
def getAppInfo (rawStg : List Nat) (p : Parameters) : Bootable :=
  match settingsFromRaw rawStg with
  | none => .NoMissingSettings
  | some remain =>
    match appInfoLoop (settingsIterList remain) none none with
    | .error b => b
    | .ok (none, _) => .NoMissingSettings
    | .ok (some _, none) => .NoMissingSettings
    | .ok (some appLen, some appCrc) =>
      if appLen > sub32 p.valid_app_range.2 p.valid_app_range.1
          ∨ appLen < p.data_chunk_size ∨ ¬ isPow2 appLen then
        .NoInvalidSettings
      else .Yes appCrc appLen

/-- The sanity conditions `get_app_info` debug-asserts on the parameters,
plus `u32` range bounds on the fields and the spec's `§3` range nesting. -/
structure Parameters.wf (p : Parameters) : Prop where
  read_ok : p.data_chunk_size ≤ p.read_max
  one_page : p.valid_app_range.1 + p.data_chunk_size ≤ p.valid_app_range.2
  page_ge8 : 8 ≤ p.data_chunk_size
  forwards : p.valid_app_range.1 < p.valid_app_range.2
  chunk_pow2 : isPow2 p.data_chunk_size = true
  flash_lo_le : p.valid_flash_range.1 ≤ p.valid_app_range.1
  app_hi_le : p.valid_app_range.2 ≤ p.valid_flash_range.2
  flash_hi_lt : p.valid_flash_range.2 < 2 ^ 32
  settings_lt : p.settings_max < 2 ^ 32
  read_lt : p.read_max < 2 ^ 32

/-! ## Flash hardware model

The `Flash` trait's side effects, modelled as a byte-addressed flash image
plus the raw settings page (mirroring the crate's reference `AtomicHardware`
test implementation). -/

/-- Flash state: the byte at each address, and the raw settings page. -/
structure FlashHW where
  flash : Nat → Nat
  settings : List Nat

/-- Models `Flash::read_range`. -/
def readRange (hw : FlashHW) (start len : Nat) : List Nat :=
  (List.range len).map fun i => hw.flash (start + i)

/-- Models `Flash::flash_range`: program `data` at `[start, start + |data|)`. -/
def flashWrite (f : Nat → Nat) (start : Nat) (data : List Nat) : Nat → Nat :=
  fun a => if start ≤ a ∧ a < start + data.length then data.getD (a - start) 0 else f a

/-- Models `Flash::erase_range`: erased flash reads `0xFF`. -/
def eraseRange (f : Nat → Nat) (start len : Nat) : Nat → Nat :=
  fun a => if start ≤ a ∧ a < start + len then 0xFF else f a

/-- Recursion core of the image-CRC loop of `Flash::is_bootable`.  Each
iteration advances `cur` by at least one whenever `data_chunk_size > 0` and
`cur` has not saturated, so the `endd - cur` fuel supplied by `bootableLoop`
is enough for every loop a well-formed `Parameters` can produce; on the
inputs where fuel could run out the Rust loop never terminates. -/
def bootableLoopAux (p : Parameters) (hw : FlashHW) : Nat → Nat → Nat → Nat → Nat
  | 0, digest, _, _ => digest
  | fuel + 1, digest, cur, endd =>
    if cur < endd then
      bootableLoopAux p hw fuel (crcUpdate digest (readRange hw cur p.data_chunk_size))
        (satAdd32 cur p.data_chunk_size) endd
    else digest

/-- The chunked image-CRC loop of `Flash::is_bootable`: starting at `cur`,
read `data_chunk_size` bytes and fold them into `digest` while `cur < endd`,
stepping with `saturating_add`. -/
def bootableLoop (p : Parameters) (hw : FlashHW) (digest cur endd : Nat) : Nat :=
  bootableLoopAux p hw (endd - cur) digest cur endd

/-- Models the provided method `Flash::is_bootable`. -/
def isBootable (p : Parameters) (hw : FlashHW) : Bootable :=
  match getAppInfo hw.settings p with
  | .Yes appCrc appLen =>
    let start := p.valid_app_range.1
    let actCrc := crcFinalize (bootableLoop p hw 0 start (add32 start appLen))
    if actCrc = appCrc then .Yes actCrc appLen else .NoInvalidCrc
  | nope => nope

/-! ## Wire types (`icd.rs`) -/

/-- Mirrors `icd::DataChunk`. -/
structure DataChunk where
  data_addr : Nat
  sub_crc32 : Nat
  data : List Nat
deriving DecidableEq

/-- Mirrors `icd::StartBootload`. -/
structure StartBootload where
  start_addr : Nat
  length : Nat
  crc32 : Nat
deriving DecidableEq

/-- Mirrors `icd::BootCommand`. -/
inductive BootCommand
  | BootIfBootable
  | ForceBoot
deriving DecidableEq

/-- Mirrors `icd::Request`. -/
inductive Request
  | Ping (n : Nat)
  | GetParameters
  | StartBootload (sb : StartBootload)
  | DataChunk (dc : DataChunk)
  | CompleteBootload (boot : Option BootCommand)
  | GetSettings
  | WriteSettings (data : List Nat)
  | GetStatus
  | ReadRange (start_addr len : Nat)
  | AbortBootload
  | IsBootable
  | Boot (cmd : BootCommand)
deriving DecidableEq

/-- Mirrors `machine::Error` (wire/decode errors). -/
inductive LineError
  | Underfill
  | Overfill
  | PostcardDecode
  | Cobs
  | Crc (expected actual : Nat)
  | LogicError
deriving DecidableEq

/-- Mirrors `icd::ResponseError`. -/
inductive ResponseError
  | BadStartAddress
  | BadLength
  | BootloadInProgress
  | SkippedRange (expected actual : Nat)
  | IncorrectLength (expected actual : Nat)
  | BadSubCrc (expected actual : Nat)
  | NoBootloadActive
  | TooManyChunks
  | IncompleteLoad (expected_len actual_len : Nat)
  | BadFullCrc (expected actual : Nat)
  | SettingsTooLong (max actual : Nat)
  | BadRangeStart
  | BadRangeEnd
  | BadRangeLength (actual max : Nat)
  | LineNak (e : LineError)
  | Oops
deriving DecidableEq

/-- Mirrors `icd::Status`. -/
inductive Status
  | Idle
  | Started (start_addr length crc32 : Nat)
  | Loading (start_addr next_addr partCrc32 expected_crc32 : Nat)
  | AwaitingComplete
deriving DecidableEq

/-- Mirrors `icd::Response`.  Borrowed byte slices are owned lists here. -/
inductive Response
  | Pong (n : Nat)
  | Parameters (p : Parameters)
  | BootloadStarted
  | ChunkAccepted (data_addr data_len crc32 : Nat)
  | ConfirmComplete (will_boot : Bool) (boot_status : Bootable)
  | Settings (data : List Nat)
  | SettingsAccepted (data_len : Nat)
  | Status (s : Status)
  | ReadRange (start_addr len : Nat) (data : List Nat)
  | BadOverfillNak
  | BadPostcardNak
  | BadCrcNak
  | BootloadAborted
  | BootableStatus (b : Bootable)
  | ConfirmBootCmd (will_boot : Bool) (boot_status : Bootable)
deriving DecidableEq

/-! ## The bootload state machine (`machine.rs`) -/

/-- Mirrors `machine::BootLoadMeta`; `digest_running` is the CRC register. -/
structure BootLoadMeta where
  digest_running : Nat
  addr_start : Nat
  addr_current : Nat
  length : Nat
  exp_crc : Nat
deriving DecidableEq

/-- Mirrors `machine::Mode`. -/
inductive Mode
  | Idle
  | BootLoad (meta : BootLoadMeta)
  | BootPending
deriving DecidableEq

/-- Mirrors `machine::Machine`: the mode plus the flash hardware. -/
structure Machine where
  mode : Mode
  hardware : FlashHW

/-- Models `Machine::new`. -/
def Machine.new (hw : FlashHW) : Machine := ⟨Mode.Idle, hw⟩

/-- Models `Machine::start_inner` (also performs the erase side effect). -/
def startInner (p : Parameters) (hw : FlashHW) (sb : StartBootload) :
    Except ResponseError Response × Mode × FlashHW :=
  if sb.start_addr ≠ p.valid_app_range.1 then
    (.error .BadStartAddress, .Idle, hw)
  else if sb.length > sub32 p.valid_app_range.2 p.valid_app_range.1
      ∨ sb.length &&& (p.data_chunk_size - 1) ≠ 0 then
    (.error .BadLength, .Idle, hw)
  else
    (.ok .BootloadStarted,
     .BootLoad ⟨0, sb.start_addr, sb.start_addr, sb.length, sb.crc32⟩,
     { hw with flash := eraseRange hw.flash sb.start_addr sb.length })

/-- Models `Machine::data_chunk_inner` (also performs the program side
effect).  `% 2 ^ 32` on the data length is the `as u32` cast. -/
def dataChunkInner (p : Parameters) (hw : FlashHW) (meta : BootLoadMeta)
    (dc : DataChunk) : Except ResponseError Response × Mode × FlashHW :=
  if dc.data_addr ≠ meta.addr_current then
    (.error (.SkippedRange meta.addr_current dc.data_addr), .BootLoad meta, hw)
  else if dc.data.length % 2 ^ 32 ≠ p.data_chunk_size then
    (.error (.IncorrectLength p.data_chunk_size (dc.data.length % 2 ^ 32)),
     .BootLoad meta, hw)
  else if add32 meta.addr_start meta.length ≤ meta.addr_current then
    (.error .TooManyChunks, .BootLoad meta, hw)
  else if crc32 dc.data ≠ dc.sub_crc32 then
    (.error (.BadSubCrc dc.sub_crc32 (crc32 dc.data)), .BootLoad meta, hw)
  else
    (.ok (.ChunkAccepted dc.data_addr (dc.data.length % 2 ^ 32) (crc32 dc.data)),
     .BootLoad { meta with
        digest_running := crcUpdate meta.digest_running dc.data,
        addr_current := add32 meta.addr_current p.data_chunk_size },
     { hw with flash := flashWrite hw.flash dc.data_addr dc.data })

/-- Models `Machine::complete_inner` (reads but never mutates the flash). -/
def completeInner (p : Parameters) (hw : FlashHW) (meta : BootLoadMeta)
    (bootCmd : Option BootCommand) : Except ResponseError Response × Mode :=
  if add32 meta.addr_start meta.length ≠ meta.addr_current then
    (.error (.IncompleteLoad meta.length (sub32 meta.addr_current meta.addr_start)),
     .BootLoad meta)
  else if crcFinalize meta.digest_running ≠ meta.exp_crc then
    (.error (.BadFullCrc meta.exp_crc (crcFinalize meta.digest_running)), .Idle)
  else
    let bs := isBootable p hw
    let wb := match bootCmd with
      | some .ForceBoot => true
      | some .BootIfBootable => match bs with | .Yes _ _ => true | _ => false
      | none => false
    (.ok (.ConfirmComplete wb bs), if wb then .BootPending else .Idle)

/-- Models `Machine::handle_start_bootload`. -/
def handleStartBootload (p : Parameters) (m : Machine) (sb : StartBootload) :
    Except ResponseError Response × Machine :=
  match m.mode with
  | .Idle =>
    let (resp, mode, hw) := startInner p m.hardware sb
    (resp, ⟨mode, hw⟩)
  | .BootLoad meta => (.error .BootloadInProgress, ⟨.BootLoad meta, m.hardware⟩)
  | .BootPending => (.error .Oops, ⟨.BootPending, m.hardware⟩)

/-- Models `Machine::handle_data_chunk`. -/
def handleDataChunk (p : Parameters) (m : Machine) (dc : DataChunk) :
    Except ResponseError Response × Machine :=
  match m.mode with
  | .Idle => (.error .NoBootloadActive, ⟨.Idle, m.hardware⟩)
  | .BootLoad meta =>
    let (resp, mode, hw) := dataChunkInner p m.hardware meta dc
    (resp, ⟨mode, hw⟩)
  | .BootPending => (.error .NoBootloadActive, ⟨.BootPending, m.hardware⟩)

/-- Models `Machine::handle_complete_bootload`. -/
def handleCompleteBootload (p : Parameters) (m : Machine)
    (boot : Option BootCommand) : Except ResponseError Response × Machine :=
  match m.mode with
  | .Idle => (.error .NoBootloadActive, ⟨.Idle, m.hardware⟩)
  | .BootLoad meta =>
    let (resp, mode) := completeInner p m.hardware meta boot
    (resp, ⟨mode, m.hardware⟩)
  | .BootPending => (.error .NoBootloadActive, ⟨.BootPending, m.hardware⟩)

/-- Models `Machine::handle_write_settings`; the settings page is replaced in
its programmed prefix, as in the reference hardware implementation. -/
def handleWriteSettings (p : Parameters) (m : Machine) (data : List Nat) :
    Except ResponseError Response × Machine :=
  if data.length % 2 ^ 32 > p.settings_max then
    (.error (.SettingsTooLong p.settings_max (data.length % 2 ^ 32)), m)
  else
    (.ok (.SettingsAccepted (data.length % 2 ^ 32)),
     ⟨m.mode, { m.hardware with settings := data ++ m.hardware.settings.drop data.length }⟩)

/-- Models `Machine::handle_get_status`. -/
def handleGetStatus (m : Machine) : Except ResponseError Response × Machine :=
  (.ok (.Status (match m.mode with
    | .Idle => .Idle
    | .BootPending => .Idle
    | .BootLoad meta =>
      if meta.addr_start = meta.addr_current then
        .Started meta.addr_start meta.length meta.exp_crc
      else if meta.addr_current = add32 meta.addr_start meta.length then
        .AwaitingComplete
      else
        .Loading meta.addr_start meta.addr_current
          (crcFinalize meta.digest_running) meta.exp_crc)), m)

/-- Models `Machine::handle_read_range` (the `data` field is filled in by
`respond`, modelled in `processReq`). -/
def handleReadRange (p : Parameters) (start_addr len : Nat) :
    Except ResponseError Response :=
  if ¬ (p.valid_flash_range.1 ≤ start_addr) then .error .BadRangeStart
  else
    match checkedAdd32 start_addr len with
    | some endd =>
      if endd ≤ p.valid_flash_range.2 then .ok (.ReadRange start_addr len [])
      else .error .BadRangeEnd
    | none => .error .BadRangeEnd

/-- Models `Machine::handle_abort_bootload`. -/
def handleAbortBootload (m : Machine) : Except ResponseError Response × Machine :=
  match m.mode with
  | .Idle => (.error .NoBootloadActive, ⟨.Idle, m.hardware⟩)
  | .BootLoad _ => (.ok .BootloadAborted, ⟨.Idle, m.hardware⟩)
  | .BootPending => (.error .NoBootloadActive, ⟨.BootPending, m.hardware⟩)

/-- Models `Machine::handle_boot`. -/
def handleBoot (p : Parameters) (m : Machine) (cmd : BootCommand) :
    Except ResponseError Response × Machine :=
  let bs := isBootable p m.hardware
  let wb := match cmd with
    | .BootIfBootable => match bs with | .Yes _ _ => true | _ => false
    | .ForceBoot => true
  (.ok (.ConfirmBootCmd wb bs), ⟨.BootPending, m.hardware⟩)

/-- Models the `respond` rework: `ReadRange` and `Settings` replies are filled
from the hardware after the handler returns. -/
def fillResponse (m : Machine) :
    Except ResponseError Response → Except ResponseError Response
  | .ok (.ReadRange s l _) => .ok (.ReadRange s l (readRange m.hardware s l))
  | .ok (.Settings _) => .ok (.Settings m.hardware.settings)
  | other => other

/-- Models the dispatch in `Machine::process` on an already-decoded request
(decode failures become `LineNak` before this dispatch and change no state). -/
def processReq (p : Parameters) (m : Machine) (req : Request) :
    Except ResponseError Response × Machine :=
  let (resp, m') := match req with
    | .Ping n => (.ok (.Pong n), m)
    | .GetParameters => (.ok (.Parameters p), m)
    | .StartBootload sb => handleStartBootload p m sb
    | .DataChunk dc => handleDataChunk p m dc
    | .CompleteBootload boot => handleCompleteBootload p m boot
    | .GetSettings => (.ok (.Settings []), m)
    | .WriteSettings data => handleWriteSettings p m data
    | .GetStatus => handleGetStatus m
    | .ReadRange start_addr len => (handleReadRange p start_addr len, m)
    | .AbortBootload => handleAbortBootload m
    | .IsBootable => (.ok (.BootableStatus (isBootable p m.hardware)), m)
    | .Boot cmd => handleBoot p m cmd
  (fillResponse m' resp, m')

/-- Folds a request sequence through the machine, keeping only the state. -/
def processAll (p : Parameters) (m : Machine) (reqs : List Request) : Machine :=
  reqs.foldl (fun m req => (processReq p m req).2) m

/-! ## COBS framing (`cobs` crate as driven by `icd.rs`)

Modelled from the spec: the `cobs` crate itself is not part of this
repository; §4.1 of the spec fixes the scheme (consistent-overhead byte
stuffing, `0x00` terminator, decoding recovers the body exactly).  The
definitions below implement standard COBS: blocks of up to 254 non-zero
bytes are prefixed with `length + 1`; a `0xFF` code marks a maximal block
with no implied zero; the decoder stops at the `0x00` terminator. -/

theorem length_takeWhile_le (q : Nat → Bool) (l : List Nat) :
    (l.takeWhile q).length ≤ l.length := by
  conv_rhs => rw [← List.takeWhile_append_dropWhile (p := q) (l := l)]
  rw [List.length_append]
  omega

theorem dropWhile_eq_drop (q : Nat → Bool) (l : List Nat) :
    l.dropWhile q = l.drop (l.takeWhile q).length := by
  have h := List.takeWhile_append_dropWhile (p := q) (l := l)
  calc l.dropWhile q
      = (l.takeWhile q ++ l.dropWhile q).drop (l.takeWhile q).length :=
        (List.drop_left _ _).symm
  _ = l.drop (l.takeWhile q).length := by rw [h]

/-- Recursion core of the COBS encoder; every step consumes at least one
input byte, so `cobsEncodeBody` always supplies enough fuel. -/
def cobsEncodeAux : Nat → List Nat → List Nat
  | 0, _ => [1]
  | fuel + 1, p =>
    if 254 ≤ (p.takeWhile (· != 0)).length then
      255 :: (p.take 254 ++ cobsEncodeAux fuel (p.drop 254))
    else
      ((p.takeWhile (· != 0)).length + 1) :: (p.takeWhile (· != 0) ++
        (if (p.drop (p.takeWhile (· != 0)).length) = [] then []
         else cobsEncodeAux fuel ((p.drop (p.takeWhile (· != 0)).length).tail)))

/-- COBS-stuff a frame body (the `cobs` crate's streaming encoder driven by
postcard's `Cobs` flavor; the `0x00` terminator is appended separately). -/
def cobsEncodeBody (p : List Nat) : List Nat := cobsEncodeAux p.length p

theorem cobsEncodeAux_congr : ∀ (f1 : Nat) {p : List Nat} (f2 : Nat),
    p.length ≤ f1 → p.length ≤ f2 → cobsEncodeAux f1 p = cobsEncodeAux f2 p := by
  intro f1
  induction f1 using Nat.strong_induction_on with
  | _ f1 ih =>
    intro p f2 h1 h2
    match f1, f2 with
    | 0, 0 => rfl
    | 0, f2 + 1 =>
      have hp : p = [] := List.length_eq_zero.mp (by omega)
      subst hp
      simp [cobsEncodeAux]
    | f1 + 1, 0 =>
      have hp : p = [] := List.length_eq_zero.mp (by omega)
      subst hp
      simp [cobsEncodeAux]
    | f1 + 1, f2 + 1 =>
      have hwle := length_takeWhile_le (· != 0) p
      by_cases h : 254 ≤ (p.takeWhile (· != 0)).length
      · simp only [cobsEncodeAux, if_pos h]
        rw [ih f1 (by omega) f2 (by simp; omega) (by simp; omega)]
      · simp only [cobsEncodeAux, if_neg h]
        by_cases h2 : (p.drop (p.takeWhile (· != 0)).length) = []
        · rw [if_pos h2, if_pos h2]
        · rw [if_neg h2, if_neg h2]
          have h3 : (p.takeWhile (· != 0)).length < p.length := by
            rcases Nat.lt_or_ge (p.takeWhile (· != 0)).length p.length with h' | h'
            · exact h'
            · exact absurd (List.drop_eq_nil_of_le h') h2
          rw [ih f1 (by omega) f2 (by simp; omega) (by simp; omega)]

theorem cobsEncodeBody_eq (p : List Nat) :
    cobsEncodeBody p =
      if 254 ≤ (p.takeWhile (· != 0)).length then
        255 :: (p.take 254 ++ cobsEncodeBody (p.drop 254))
      else
        ((p.takeWhile (· != 0)).length + 1) :: (p.takeWhile (· != 0) ++
          (if (p.drop (p.takeWhile (· != 0)).length) = [] then []
           else cobsEncodeBody ((p.drop (p.takeWhile (· != 0)).length).tail))) := by
  unfold cobsEncodeBody
  have hwle := length_takeWhile_le (· != 0) p
  by_cases h : 254 ≤ (p.takeWhile (· != 0)).length
  · have hp : 1 ≤ p.length := by omega
    obtain ⟨f, hf⟩ : ∃ k, p.length = k + 1 := ⟨p.length - 1, by omega⟩
    rw [hf]
    simp only [cobsEncodeAux, if_pos h]
    rw [cobsEncodeAux_congr f (p.drop 254).length (by simp; omega) le_rfl]
  · rcases hp : p.length with - | f
    · have hpn : p = [] := List.length_eq_zero.mp hp
      subst hpn
      simp [cobsEncodeAux]
    · simp only [cobsEncodeAux, if_neg h]
      by_cases h2 : (p.drop (p.takeWhile (· != 0)).length) = []
      · rw [if_pos h2, if_pos h2]
      · rw [if_neg h2, if_neg h2]
        have h3 : (p.takeWhile (· != 0)).length < p.length := by
          rcases Nat.lt_or_ge (p.takeWhile (· != 0)).length p.length with h' | h'
          · exact h'
          · exact absurd (List.drop_eq_nil_of_le h') h2
        rw [cobsEncodeAux_congr f ((p.drop (p.takeWhile (· != 0)).length).tail).length
          (by simp; omega) le_rfl]

/-- Recursion core of the COBS decoder; every block consumes at least the
code byte, so `cobsDecodeBody` always supplies enough fuel. -/
def cobsDecodeAux : Nat → List Nat → Option (List Nat)
  | 0, _ => some []
  | fuel + 1, l =>
    match l with
    | [] => some []
    | c :: rest =>
      if c = 0 then some []
      else if rest.length < c - 1 then none
      else
        match cobsDecodeAux fuel (rest.drop (c - 1)) with
        | none => none
        | some tail =>
          if c ≠ 255 ∧ rest.drop (c - 1) ≠ [] ∧ (rest.drop (c - 1)).head? ≠ some 0 then
            some (rest.take (c - 1) ++ 0 :: tail)
          else
            some (rest.take (c - 1) ++ tail)

/-- COBS-unstuff a buffer (`cobs::decode_in_place`): read a code byte `c`,
copy the next `c - 1` bytes, emit an implied zero after a non-`0xFF` block
that is not at the end of the frame; stop at the `0x00` terminator. -/
def cobsDecodeBody (l : List Nat) : Option (List Nat) := cobsDecodeAux l.length l

theorem cobsDecodeAux_congr : ∀ (f1 : Nat) {l : List Nat} (f2 : Nat),
    l.length ≤ f1 → l.length ≤ f2 → cobsDecodeAux f1 l = cobsDecodeAux f2 l := by
  intro f1
  induction f1 using Nat.strong_induction_on with
  | _ f1 ih =>
    intro l f2 h1 h2
    match f1, f2 with
    | 0, 0 => rfl
    | 0, f2 + 1 =>
      have hp : l = [] := List.length_eq_zero.mp (by omega)
      subst hp
      rfl
    | f1 + 1, 0 =>
      have hp : l = [] := List.length_eq_zero.mp (by omega)
      subst hp
      rfl
    | f1 + 1, f2 + 1 =>
      match l with
      | [] => rfl
      | c :: rest =>
        simp only [cobsDecodeAux]
        simp only [List.length_cons] at h1 h2
        rw [ih f1 (by omega) f2 (by simp; omega) (by simp; omega)]

theorem cobsDecodeBody_cons (c : Nat) (rest : List Nat) :
    cobsDecodeBody (c :: rest) =
      if c = 0 then some []
      else if rest.length < c - 1 then none
      else
        match cobsDecodeBody (rest.drop (c - 1)) with
        | none => none
        | some tail =>
          if c ≠ 255 ∧ rest.drop (c - 1) ≠ [] ∧ (rest.drop (c - 1)).head? ≠ some 0 then
            some (rest.take (c - 1) ++ 0 :: tail)
          else
            some (rest.take (c - 1) ++ tail) := by
  unfold cobsDecodeBody
  simp only [List.length_cons, cobsDecodeAux]
  rw [cobsDecodeAux_congr rest.length (rest.drop (c - 1)).length (by simp) le_rfl]

theorem cobsDecodeBody_zero (junk : List Nat) : cobsDecodeBody (0 :: junk) = some [] := by
  rw [cobsDecodeBody_cons]
  simp

theorem cobsEncodeBody_head (p : List Nat) :
    ∃ c cs, cobsEncodeBody p = c :: cs ∧ c ≠ 0 := by
  rw [cobsEncodeBody_eq]
  split
  · exact ⟨255, _, rfl, by omega⟩
  · exact ⟨_ + 1, _, rfl, by omega⟩

theorem cobsDecodeBody_encode_aux :
    ∀ (n : Nat) (p : List Nat), p.length ≤ n → ∀ junk : List Nat,
      cobsDecodeBody (cobsEncodeBody p ++ 0 :: junk) = some p := by
  intro n
  induction n with
  | zero =>
    intro p hp junk
    have hp0 : p = [] := by
      cases p with
      | nil => rfl
      | cons a as => simp at hp
    subst hp0
    have henc : cobsEncodeBody [] = [1] := rfl
    rw [henc]
    simp only [List.cons_append, List.nil_append]
    rw [cobsDecodeBody_cons]
    simp [cobsDecodeBody_zero]
  | succ n ih =>
    intro p hp junk
    rw [cobsEncodeBody_eq]
    by_cases h : 254 ≤ (p.takeWhile (· != 0)).length
    · have hplen : 254 ≤ p.length := le_trans h (length_takeWhile_le _ _)
      have htk : (p.take 254).length = 254 := by simp; omega
      rw [if_pos h]
      simp only [List.cons_append, List.append_assoc]
      rw [cobsDecodeBody_cons]
      rw [if_neg (by omega)]
      have hrlen : ¬ ((p.take 254 ++ (cobsEncodeBody (p.drop 254) ++ 0 :: junk)).length
          < 255 - 1) := by
        simp only [List.length_append, htk]
        omega
      rw [if_neg hrlen]
      have htake : (p.take 254 ++ (cobsEncodeBody (p.drop 254) ++ 0 :: junk)).take (255 - 1)
          = p.take 254 := List.take_left' htk
      have hdrop : (p.take 254 ++ (cobsEncodeBody (p.drop 254) ++ 0 :: junk)).drop (255 - 1)
          = cobsEncodeBody (p.drop 254) ++ 0 :: junk := List.drop_left' htk
      rw [hdrop, ih (p.drop 254) (by simp; omega) junk]
      simp [htake, List.take_append_drop]
    · rw [if_neg h]
      have hk := length_takeWhile_le (· != 0) p
      set seg := p.takeWhile (· != 0) with hseg
      set k := seg.length with hk2
      have hsegp : seg ++ p.drop k = p := by
        rw [hseg, hk2, ← dropWhile_eq_drop, List.takeWhile_append_dropWhile]
      by_cases hrest : p.drop k = []
      · rw [if_pos hrest]
        simp only [List.append_nil, List.cons_append, List.append_assoc, List.nil_append]
        rw [cobsDecodeBody_cons]
        rw [if_neg (by omega)]
        have hrlen : ¬ ((seg ++ 0 :: junk).length < k + 1 - 1) := by
          simp only [List.length_append]
          omega
        rw [if_neg hrlen]
        have hksimp : k + 1 - 1 = k := by omega
        have htake : (seg ++ 0 :: junk).take (k + 1 - 1) = seg := by
          rw [hksimp]; exact List.take_left' rfl
        have hdrop : (seg ++ 0 :: junk).drop (k + 1 - 1) = 0 :: junk := by
          rw [hksimp]; exact List.drop_left' rfl
        rw [hdrop, cobsDecodeBody_zero]
        have hp2 : p = seg := by
          conv_lhs => rw [← hsegp, hrest]
          rw [List.append_nil]
        simp [htake, hp2]
      · rw [if_neg hrest]
        obtain ⟨z, t, hzt⟩ : ∃ z t, p.drop k = z :: t := by
          rcases hd : p.drop k with - | ⟨z, t⟩
          · exact absurd hd hrest
          · exact ⟨z, t, rfl⟩
        have hz : z = 0 := by
          have h0 : ((p.drop k).head? = some z) := by rw [hzt]; rfl
          rw [hk2, hseg, ← dropWhile_eq_drop] at h0
          have hnot := List.head?_dropWhile_not (· != 0) p
          rw [h0] at hnot
          simpa using hnot
        simp only [List.cons_append, List.append_assoc]
        rw [cobsDecodeBody_cons]
        rw [if_neg (by omega)]
        obtain ⟨c0, cs0, hc0, hc0ne⟩ := cobsEncodeBody_head ((p.drop k).tail)
        have hrlen : ¬ ((seg ++ (cobsEncodeBody ((p.drop k).tail) ++ 0 :: junk)).length
            < k + 1 - 1) := by
          simp only [List.length_append]
          omega
        rw [if_neg hrlen]
        have hksimp : k + 1 - 1 = k := by omega
        have htake : (seg ++ (cobsEncodeBody ((p.drop k).tail) ++ 0 :: junk)).take (k + 1 - 1)
            = seg := by rw [hksimp]; exact List.take_left' rfl
        have hdrop : (seg ++ (cobsEncodeBody ((p.drop k).tail) ++ 0 :: junk)).drop (k + 1 - 1)
            = cobsEncodeBody ((p.drop k).tail) ++ 0 :: junk := by
          rw [hksimp]; exact List.drop_left' rfl
        rw [hdrop]
        have htail : ((p.drop k).tail).length ≤ n := by
          have hdl : (p.drop k).length = p.length - k := List.length_drop ..
          rw [hzt] at hdl
          simp only [List.length_cons] at hdl
          rw [hzt]
          simp only [List.tail_cons]
          omega
        rw [ih ((p.drop k).tail) htail junk]
        have hcond : k + 1 ≠ 255 ∧ cobsEncodeBody ((p.drop k).tail) ++ 0 :: junk ≠ [] ∧
            (cobsEncodeBody ((p.drop k).tail) ++ 0 :: junk).head? ≠ some 0 := by
          refine ⟨by omega, ?_, ?_⟩
          · rw [hc0]; simp
          · rw [hc0]; simpa using hc0ne
        have hp2 : p = seg ++ 0 :: t := by
          conv_lhs => rw [← hsegp, hzt, hz]
        rw [hzt] at hc0
        simp only [List.tail_cons] at hc0
        simp [hcond, htake, hzt, hp2, hc0, hc0ne]

/-- COBS round-trip: unstuffing a stuffed body followed by the terminator
(and anything beyond it) recovers the body. -/
theorem cobsDecodeBody_encode (p junk : List Nat) :
    cobsDecodeBody (cobsEncodeBody p ++ 0 :: junk) = some p :=
  cobsDecodeBody_encode_aux p.length p le_rfl junk

/-! ## Frame encode/decode (`icd::encode_to_vec`, `icd::decode_in_place`) -/

/-- Models `icd::decode_in_place::<T>` for a structural decoder `des`
(postcard `from_bytes`, which ignores trailing bytes): unstuff in place,
check the minimum length, split off and verify the CRC-32 trailer, then
hand the payload to the structural decoder. -/
def decodeInPlace {α : Type} (des : List Nat → Option α) (buf : List Nat) :
    Except LineError α :=
  match cobsDecodeBody buf with
  | none => .error .Cobs
  | some u =>
    if u.length < 5 then .error .Underfill
    else
      let data := u.take (u.length - 4)
      let exp := leU32 (u.drop (u.length - 4))
      let act := crc32 data
      if exp ≠ act then .error (.Crc exp act)
      else
        match des data with
        | some v => .ok v
        | none => .error .PostcardDecode

/-- Models the `Crc32SerFlavor<Cobs<_>>` pipeline of `encode_to_vec`:
structural payload, CRC-32 trailer (little endian), byte stuffing, `0x00`
terminator. -/
def encodeFrame (payload : List Nat) : List Nat :=
  cobsEncodeBody (payload ++ le32 (crc32 payload)) ++ [0]

/-! ## postcard codec for the wire types (`Request`, `Response`) -/

/-- Postcard encoding of a `bool` (`serialize_u8(0 | 1)`). -/
def putBool (b : Bool) : List Nat := [if b then 1 else 0]

/-- Postcard decoding of a `bool` (any other byte is rejected). -/
def takeBool (l : List Nat) : Option (Bool × List Nat) :=
  match l with
  | 0 :: r => some (false, r)
  | 1 :: r => some (true, r)
  | _ => none

/-- Postcard encoding of a `BootCommand` (unit variants: varint tag only). -/
def putBootCommand : BootCommand → List Nat
  | .BootIfBootable => putVarint 0
  | .ForceBoot => putVarint 1

/-- Postcard decoding of a `BootCommand`. -/
def takeBootCommand (l : List Nat) : Option (BootCommand × List Nat) :=
  match takeU32 l with
  | some (0, r) => some (.BootIfBootable, r)
  | some (1, r) => some (.ForceBoot, r)
  | _ => none

/-- Postcard encoding of an `Option<BootCommand>` (`None = 0`, `Some = 1`). -/
def putOptBootCommand : Option BootCommand → List Nat
  | none => [0]
  | some c => 1 :: putBootCommand c

/-- Postcard decoding of an `Option<BootCommand>`. -/
def takeOptBootCommand (l : List Nat) : Option (Option BootCommand × List Nat) :=
  match l with
  | 0 :: r => some (none, r)
  | 1 :: r => (takeBootCommand r).map fun p => (some p.1, p.2)
  | _ => none

/-- Postcard encoding of `Parameters` (seven `u32` varints, fields and tuple
components in declaration order). -/
def putParameters (p : Parameters) : List Nat :=
  putVarint p.settings_max ++ putVarint p.data_chunk_size ++
  putVarint p.valid_flash_range.1 ++ putVarint p.valid_flash_range.2 ++
  putVarint p.valid_app_range.1 ++ putVarint p.valid_app_range.2 ++
  putVarint p.read_max

/-- Postcard decoding of `Parameters`. -/
def takeParameters (l : List Nat) : Option (Parameters × List Nat) :=
  match takeU32 l with
  | none => none
  | some (sm, r1) =>
    match takeU32 r1 with
    | none => none
    | some (dcs, r2) =>
      match takeU32 r2 with
      | none => none
      | some (fl, r3) =>
        match takeU32 r3 with
        | none => none
        | some (fh, r4) =>
          match takeU32 r4 with
          | none => none
          | some (al, r5) =>
            match takeU32 r5 with
            | none => none
            | some (ah, r6) =>
              match takeU32 r6 with
              | none => none
              | some (rm, r7) => some (⟨sm, dcs, (fl, fh), (al, ah), rm⟩, r7)

/-- Postcard encoding of `Bootable` (`Yes` carries a `u32` and a `usize`). -/
def putBootable : Bootable → List Nat
  | .Unsure => putVarint 0
  | .NoMissingSettings => putVarint 1
  | .NoDuplicateSettings => putVarint 2
  | .NoInvalidSettings => putVarint 3
  | .NoInvalidCrc => putVarint 4
  | .Yes c len => putVarint 5 ++ putVarint c ++ putVarint len

/-- Postcard decoding of `Bootable`. -/
def takeBootable (l : List Nat) : Option (Bootable × List Nat) :=
  match takeU32 l with
  | some (0, r) => some (.Unsure, r)
  | some (1, r) => some (.NoMissingSettings, r)
  | some (2, r) => some (.NoDuplicateSettings, r)
  | some (3, r) => some (.NoInvalidSettings, r)
  | some (4, r) => some (.NoInvalidCrc, r)
  | some (5, r) =>
    match takeU32 r with
    | none => none
    | some (c, r1) =>
      match takeUsize r1 with
      | none => none
      | some (len, r2) => some (.Yes c len, r2)
  | _ => none

/-- Postcard encoding of `Status`. -/
def putStatus : Status → List Nat
  | .Idle => putVarint 0
  | .Started a len c => putVarint 1 ++ putVarint a ++ putVarint len ++ putVarint c
  | .Loading s nx pc ec =>
    putVarint 2 ++ putVarint s ++ putVarint nx ++ putVarint pc ++ putVarint ec
  | .AwaitingComplete => putVarint 3

/-- Postcard decoding of `Status`. -/
def takeStatus (l : List Nat) : Option (Status × List Nat) :=
  match takeU32 l with
  | some (0, r) => some (.Idle, r)
  | some (1, r) =>
    match takeU32 r with
    | none => none
    | some (a, r1) =>
      match takeU32 r1 with
      | none => none
      | some (len, r2) =>
        match takeU32 r2 with
        | none => none
        | some (c, r3) => some (.Started a len c, r3)
  | some (2, r) =>
    match takeU32 r with
    | none => none
    | some (s, r1) =>
      match takeU32 r1 with
      | none => none
      | some (nx, r2) =>
        match takeU32 r2 with
        | none => none
        | some (pc, r3) =>
          match takeU32 r3 with
          | none => none
          | some (ec, r4) => some (.Loading s nx pc ec, r4)
  | some (3, r) => some (.AwaitingComplete, r)
  | _ => none

/-- Postcard encoding of `Request` (tags in declaration order). -/
def putRequest : Request → List Nat
  | .Ping n => putVarint 0 ++ putVarint n
  | .GetParameters => putVarint 1
  | .StartBootload sb =>
    putVarint 2 ++ putVarint sb.start_addr ++ putVarint sb.length ++ putVarint sb.crc32
  | .DataChunk dc =>
    putVarint 3 ++ putVarint dc.data_addr ++ putVarint dc.sub_crc32 ++ putBytes dc.data
  | .CompleteBootload boot => putVarint 4 ++ putOptBootCommand boot
  | .GetSettings => putVarint 5
  | .WriteSettings data => putVarint 6 ++ putBytes data
  | .GetStatus => putVarint 7
  | .ReadRange s len => putVarint 8 ++ putVarint s ++ putVarint len
  | .AbortBootload => putVarint 9
  | .IsBootable => putVarint 10
  | .Boot cmd => putVarint 11 ++ putBootCommand cmd

/-- Postcard decoding of `Request`. -/
def takeRequest (l : List Nat) : Option (Request × List Nat) :=
  match takeU32 l with
  | some (0, r) => (takeU32 r).map fun p => (.Ping p.1, p.2)
  | some (1, r) => some (.GetParameters, r)
  | some (2, r) =>
    match takeU32 r with
    | none => none
    | some (a, r1) =>
      match takeU32 r1 with
      | none => none
      | some (len, r2) =>
        match takeU32 r2 with
        | none => none
        | some (c, r3) => some (.StartBootload ⟨a, len, c⟩, r3)
  | some (3, r) =>
    match takeU32 r with
    | none => none
    | some (a, r1) =>
      match takeU32 r1 with
      | none => none
      | some (sc, r2) =>
        match takeBytes r2 with
        | none => none
        | some (d, r3) => some (.DataChunk ⟨a, sc, d⟩, r3)
  | some (4, r) => (takeOptBootCommand r).map fun p => (.CompleteBootload p.1, p.2)
  | some (5, r) => some (.GetSettings, r)
  | some (6, r) => (takeBytes r).map fun p => (.WriteSettings p.1, p.2)
  | some (7, r) => some (.GetStatus, r)
  | some (8, r) =>
    match takeU32 r with
    | none => none
    | some (s, r1) =>
      match takeU32 r1 with
      | none => none
      | some (len, r2) => some (.ReadRange s len, r2)
  | some (9, r) => some (.AbortBootload, r)
  | some (10, r) => some (.IsBootable, r)
  | some (11, r) => (takeBootCommand r).map fun p => (.Boot p.1, p.2)
  | _ => none

/-- Postcard encoding of `Response` (tags in declaration order). -/
def putResponse : Response → List Nat
  | .Pong n => putVarint 0 ++ putVarint n
  | .Parameters p => putVarint 1 ++ putParameters p
  | .BootloadStarted => putVarint 2
  | .ChunkAccepted a len c => putVarint 3 ++ putVarint a ++ putVarint len ++ putVarint c
  | .ConfirmComplete wb bs => putVarint 4 ++ putBool wb ++ putBootable bs
  | .Settings data => putVarint 5 ++ putBytes data
  | .SettingsAccepted len => putVarint 6 ++ putVarint len
  | .Status s => putVarint 7 ++ putStatus s
  | .ReadRange s len data => putVarint 8 ++ putVarint s ++ putVarint len ++ putBytes data
  | .BadOverfillNak => putVarint 9
  | .BadPostcardNak => putVarint 10
  | .BadCrcNak => putVarint 11
  | .BootloadAborted => putVarint 12
  | .BootableStatus b => putVarint 13 ++ putBootable b
  | .ConfirmBootCmd wb bs => putVarint 14 ++ putBool wb ++ putBootable bs

/-- Postcard decoding of `Response`. -/
def takeResponse (l : List Nat) : Option (Response × List Nat) :=
  match takeU32 l with
  | some (0, r) => (takeU32 r).map fun p => (.Pong p.1, p.2)
  | some (1, r) => (takeParameters r).map fun p => (.Parameters p.1, p.2)
  | some (2, r) => some (.BootloadStarted, r)
  | some (3, r) =>
    match takeU32 r with
    | none => none
    | some (a, r1) =>
      match takeU32 r1 with
      | none => none
      | some (len, r2) =>
        match takeU32 r2 with
        | none => none
        | some (c, r3) => some (.ChunkAccepted a len c, r3)
  | some (4, r) =>
    match takeBool r with
    | none => none
    | some (wb, r1) =>
      match takeBootable r1 with
      | none => none
      | some (bs, r2) => some (.ConfirmComplete wb bs, r2)
  | some (5, r) => (takeBytes r).map fun p => (.Settings p.1, p.2)
  | some (6, r) => (takeU32 r).map fun p => (.SettingsAccepted p.1, p.2)
  | some (7, r) => (takeStatus r).map fun p => (.Status p.1, p.2)
  | some (8, r) =>
    match takeU32 r with
    | none => none
    | some (s, r1) =>
      match takeU32 r1 with
      | none => none
      | some (len, r2) =>
        match takeBytes r2 with
        | none => none
        | some (d, r3) => some (.ReadRange s len d, r3)
  | some (9, r) => some (.BadOverfillNak, r)
  | some (10, r) => some (.BadPostcardNak, r)
  | some (11, r) => some (.BadCrcNak, r)
  | some (12, r) => some (.BootloadAborted, r)
  | some (13, r) => (takeBootable r).map fun p => (.BootableStatus p.1, p.2)
  | some (14, r) =>
    match takeBool r with
    | none => none
    | some (wb, r1) =>
      match takeBootable r1 with
      | none => none
      | some (bs, r2) => some (.ConfirmBootCmd wb bs, r2)
  | _ => none

/-- Models `Request::encode_to_vec`. -/
def Request.encode_to_vec (req : Request) : List Nat := encodeFrame (putRequest req)

/-- Models `Response::encode_to_vec`. -/
def Response.encode_to_vec (resp : Response) : List Nat := encodeFrame (putResponse resp)

/-- Models `postcard::from_bytes::<Request>` (trailing bytes are ignored). -/
def desRequest (l : List Nat) : Option Request := (takeRequest l).map Prod.fst

/-- Models `postcard::from_bytes::<Response>` (trailing bytes are ignored). -/
def desResponse (l : List Nat) : Option Response := (takeResponse l).map Prod.fst

/-! ## Codec round-trip lemmas

The `bounded` predicates say that every numeric field fits its Rust integer
type (`u32`, or `usize` for slice lengths), i.e. that the Lean value is the
image of an actual Rust value. -/

theorem takeU32_small {b : Nat} (r : List Nat) (h : b < 128) :
    takeU32 (b :: r) = some (b, r) := by
  have h2 := takeU32_putVarint r (lt_trans h (by norm_num))
  rwa [putVarint_small h, List.cons_append, List.nil_append] at h2

theorem takeBytes_putBytes {l : List Nat} (r : List Nat) (h : l.length < 2 ^ 64) :
    takeBytes (putBytes l ++ r) = some (l, r) := by
  simp only [putBytes, List.append_assoc, takeBytes, takeUsize_putVarint _ h]
  rw [if_pos (by simp)]
  rw [List.take_left' rfl, List.drop_left' rfl]

theorem takeBool_putBool (b : Bool) (r : List Nat) :
    takeBool (putBool b ++ r) = some (b, r) := by
  cases b <;> rfl

theorem takeBootCommand_putBootCommand (c : BootCommand) (r : List Nat) :
    takeBootCommand (putBootCommand c ++ r) = some (c, r) := by
  cases c <;>
    simp [putBootCommand, takeBootCommand, putVarint_small, takeU32_small, takeU32_putVarint]

theorem takeOptBootCommand_putOptBootCommand (c : Option BootCommand) (r : List Nat) :
    takeOptBootCommand (putOptBootCommand c ++ r) = some (c, r) := by
  rcases c with - | c
  · rfl
  · simp [putOptBootCommand, takeOptBootCommand, takeBootCommand_putBootCommand]

/-- All seven `u32` fields of `Parameters` are in range. -/
def Parameters.bounded (p : Parameters) : Prop :=
  p.settings_max < 2 ^ 32 ∧ p.data_chunk_size < 2 ^ 32 ∧
  p.valid_flash_range.1 < 2 ^ 32 ∧ p.valid_flash_range.2 < 2 ^ 32 ∧
  p.valid_app_range.1 < 2 ^ 32 ∧ p.valid_app_range.2 < 2 ^ 32 ∧
  p.read_max < 2 ^ 32

theorem takeParameters_putParameters {p : Parameters} (r : List Nat)
    (h : p.bounded) : takeParameters (putParameters p ++ r) = some (p, r) := by
  obtain ⟨h1, h2, h3, h4, h5, h6, h7⟩ := h
  simp only [putParameters, List.append_assoc, takeParameters,
    takeU32_putVarint _ h1, takeU32_putVarint _ h2, takeU32_putVarint _ h3,
    takeU32_putVarint _ h4, takeU32_putVarint _ h5, takeU32_putVarint _ h6,
    takeU32_putVarint _ h7]

/-- The `Yes` payload of a `Bootable` is a `u32` CRC and a `usize` length. -/
def Bootable.bounded : Bootable → Prop
  | .Yes c len => c < 2 ^ 32 ∧ len < 2 ^ 64
  | _ => True

theorem takeBootable_putBootable {b : Bootable} (r : List Nat) (h : b.bounded) :
    takeBootable (putBootable b ++ r) = some (b, r) := by
  cases b with
  | Yes c len =>
    obtain ⟨h1, h2⟩ := h
    simp [putBootable, List.append_assoc, takeBootable, putVarint_small, takeU32_small,
      takeU32_putVarint, takeU32_putVarint _ h1, takeUsize_putVarint _ h2]
  | _ =>
    simp [putBootable, takeBootable, putVarint_small, takeU32_small, takeU32_putVarint]

/-- All fields of a `Status` are `u32` values. -/
def Status.bounded : Status → Prop
  | .Started a len c => a < 2 ^ 32 ∧ len < 2 ^ 32 ∧ c < 2 ^ 32
  | .Loading s nx pc ec => s < 2 ^ 32 ∧ nx < 2 ^ 32 ∧ pc < 2 ^ 32 ∧ ec < 2 ^ 32
  | _ => True

theorem takeStatus_putStatus {s : Status} (r : List Nat) (h : s.bounded) :
    takeStatus (putStatus s ++ r) = some (s, r) := by
  cases s with
  | Started a len c =>
    obtain ⟨h1, h2, h3⟩ := h
    simp [putStatus, List.append_assoc, takeStatus, putVarint_small, takeU32_small,
      takeU32_putVarint, takeU32_putVarint _ h1, takeU32_putVarint _ h2,
      takeU32_putVarint _ h3]
  | Loading a nx pc ec =>
    obtain ⟨h1, h2, h3, h4⟩ := h
    simp [putStatus, List.append_assoc, takeStatus, putVarint_small, takeU32_small,
      takeU32_putVarint, takeU32_putVarint _ h1, takeU32_putVarint _ h2,
      takeU32_putVarint _ h3, takeU32_putVarint _ h4]
  | _ => simp [putStatus, takeStatus, putVarint_small, takeU32_small, takeU32_putVarint]

/-- All numeric fields of a `Request` fit their Rust types. -/
def Request.bounded : Request → Prop
  | .Ping n => n < 2 ^ 32
  | .StartBootload sb => sb.start_addr < 2 ^ 32 ∧ sb.length < 2 ^ 32 ∧ sb.crc32 < 2 ^ 32
  | .DataChunk dc => dc.data_addr < 2 ^ 32 ∧ dc.sub_crc32 < 2 ^ 32 ∧ dc.data.length < 2 ^ 64
  | .WriteSettings data => data.length < 2 ^ 64
  | .ReadRange s len => s < 2 ^ 32 ∧ len < 2 ^ 32
  | _ => True

theorem takeRequest_putRequest {req : Request} (r : List Nat) (h : req.bounded) :
    takeRequest (putRequest req ++ r) = some (req, r) := by
  cases req with
  | Ping n =>
    simp [putRequest, List.append_assoc, takeRequest, putVarint_small, takeU32_small,
      takeU32_putVarint, takeU32_putVarint _ h]
  | StartBootload sb =>
    obtain ⟨h1, h2, h3⟩ := h
    simp [putRequest, List.append_assoc, takeRequest, putVarint_small, takeU32_small,
      takeU32_putVarint, takeU32_putVarint _ h1, takeU32_putVarint _ h2,
      takeU32_putVarint _ h3]
  | DataChunk dc =>
    obtain ⟨h1, h2, h3⟩ := h
    simp [putRequest, List.append_assoc, takeRequest, putVarint_small, takeU32_small,
      takeU32_putVarint, takeU32_putVarint _ h1, takeU32_putVarint _ h2,
      takeBytes_putBytes _ h3]
  | CompleteBootload boot =>
    simp [putRequest, List.append_assoc, takeRequest, putVarint_small, takeU32_small,
      takeU32_putVarint, takeOptBootCommand_putOptBootCommand]
  | WriteSettings data =>
    simp [putRequest, List.append_assoc, takeRequest, putVarint_small, takeU32_small,
      takeU32_putVarint, takeBytes_putBytes _ h]
  | ReadRange s len =>
    obtain ⟨h1, h2⟩ := h
    simp [putRequest, List.append_assoc, takeRequest, putVarint_small, takeU32_small,
      takeU32_putVarint, takeU32_putVarint _ h1, takeU32_putVarint _ h2]
  | Boot cmd =>
    simp [putRequest, List.append_assoc, takeRequest, putVarint_small, takeU32_small,
      takeU32_putVarint, takeBootCommand_putBootCommand]
  | _ => simp [putRequest, takeRequest, putVarint_small, takeU32_small, takeU32_putVarint]

/-- All numeric fields of a `Response` fit their Rust types. -/
def Response.bounded : Response → Prop
  | .Pong n => n < 2 ^ 32
  | .Parameters p => p.bounded
  | .ChunkAccepted a len c => a < 2 ^ 32 ∧ len < 2 ^ 32 ∧ c < 2 ^ 32
  | .ConfirmComplete _ bs => bs.bounded
  | .Settings data => data.length < 2 ^ 64
  | .SettingsAccepted len => len < 2 ^ 32
  | .Status s => s.bounded
  | .ReadRange s len data => s < 2 ^ 32 ∧ len < 2 ^ 32 ∧ data.length < 2 ^ 64
  | .BootableStatus b => b.bounded
  | .ConfirmBootCmd _ bs => bs.bounded
  | _ => True

theorem takeResponse_putResponse {resp : Response} (r : List Nat) (h : resp.bounded) :
    takeResponse (putResponse resp ++ r) = some (resp, r) := by
  cases resp with
  | Pong n =>
    simp [putResponse, List.append_assoc, takeResponse, putVarint_small, takeU32_small,
      takeU32_putVarint, takeU32_putVarint _ h]
  | Parameters p =>
    simp [putResponse, List.append_assoc, takeResponse, putVarint_small, takeU32_small,
      takeU32_putVarint, takeParameters_putParameters _ h]
  | ChunkAccepted a len c =>
    obtain ⟨h1, h2, h3⟩ := h
    simp [putResponse, List.append_assoc, takeResponse, putVarint_small, takeU32_small,
      takeU32_putVarint, takeU32_putVarint _ h1, takeU32_putVarint _ h2,
      takeU32_putVarint _ h3]
  | ConfirmComplete wb bs =>
    simp [putResponse, List.append_assoc, takeResponse, putVarint_small, takeU32_small,
      takeU32_putVarint, takeBool_putBool, takeBootable_putBootable _ h]
  | Settings data =>
    simp [putResponse, List.append_assoc, takeResponse, putVarint_small, takeU32_small,
      takeU32_putVarint, takeBytes_putBytes _ h]
  | SettingsAccepted len =>
    simp [putResponse, List.append_assoc, takeResponse, putVarint_small, takeU32_small,
      takeU32_putVarint, takeU32_putVarint _ h]
  | Status s =>
    simp [putResponse, List.append_assoc, takeResponse, putVarint_small, takeU32_small,
      takeU32_putVarint, takeStatus_putStatus _ h]
  | ReadRange s len data =>
    obtain ⟨h1, h2, h3⟩ := h
    simp [putResponse, List.append_assoc, takeResponse, putVarint_small, takeU32_small,
      takeU32_putVarint, takeU32_putVarint _ h1, takeU32_putVarint _ h2,
      takeBytes_putBytes _ h3]
  | BootableStatus b =>
    simp [putResponse, List.append_assoc, takeResponse, putVarint_small, takeU32_small,
      takeU32_putVarint, takeBootable_putBootable _ h]
  | ConfirmBootCmd wb bs =>
    simp [putResponse, List.append_assoc, takeResponse, putVarint_small, takeU32_small,
      takeU32_putVarint, takeBool_putBool, takeBootable_putBootable _ h]
  | _ => simp [putResponse, takeResponse, putVarint_small, takeU32_small, takeU32_putVarint]

/-! ## Frame round-trip -/

theorem putRequest_ne_nil (req : Request) : putRequest req ≠ [] := by
  cases req <;> simp [putRequest, putVarint_ne_nil]

theorem putResponse_ne_nil (resp : Response) : putResponse resp ≠ [] := by
  cases resp <;> simp [putResponse, putVarint_ne_nil]

/-- Decoding a frame produced by `encodeFrame` always passes the COBS,
length and CRC stages and hands exactly the structural payload to the
structural decoder. -/
theorem decodeInPlace_encodeFrame {α : Type} (des : List Nat → Option α)
    (payload : List Nat) (hne : payload ≠ []) :
    decodeInPlace des (encodeFrame payload) =
      match des payload with
      | some v => .ok v
      | none => .error .PostcardDecode := by
  unfold encodeFrame decodeInPlace
  rw [cobsDecodeBody_encode (payload ++ le32 (crc32 payload)) []]
  have hlen : (payload ++ le32 (crc32 payload)).length = payload.length + 4 := by
    simp [le32_length]
  have hplen : 1 ≤ payload.length := by
    cases payload with
    | nil => exact absurd rfl hne
    | cons a as => simp
  have hc : ¬ (payload.length + 4 < 5) := by omega
  have htake : List.take payload.length (payload ++ le32 (crc32 payload)) = payload :=
    List.take_left ..
  have hdrop : List.drop payload.length (payload ++ le32 (crc32 payload)) =
      le32 (crc32 payload) := List.drop_left ..
  simp [le32_length, htake, hdrop, leU32_le32 _ (crc32_lt payload), hc]

/-! ## Claim theorems -/

/-- Small well-formed parameter set used to instantiate theorems on concrete
inputs (chunk size 8, app range `[16, 64)`). -/
def testParams : Parameters where
  settings_max := 60
  data_chunk_size := 8
  valid_flash_range := (0, 64)
  valid_app_range := (16, 64)
  read_max := 8

/-- Concrete hardware state: erased-pattern flash, empty settings page. -/
def testHW : FlashHW := ⟨fun _ => 0xA5, []⟩

/-- A session four chunks long, two chunks in. -/
def testMeta : BootLoadMeta := ⟨0, 16, 32, 32, 5⟩

/-- C1: in mode `BootLoad`, a `DataChunk` request is validated by exactly
four ordered checks — address match (`SkippedRange`), chunk length
(`IncorrectLength`), session capacity (`TooManyChunks`), sub-CRC
(`BadSubCrc`) — the first failure answering while the session and hardware
are unchanged; if all pass, the data is programmed at `data_addr`, folded
into the running digest, `addr_current` advances by `data_chunk_size`, and
the reply is `ChunkAccepted`; the mode stays `BootLoad` in every case. -/
theorem dataChunkInner_spec (p : Parameters) (hw : FlashHW) (meta : BootLoadMeta)
    (dc : DataChunk) (hlen : dc.data.length < 2 ^ 32)
    (hsum : meta.addr_start + meta.length < 2 ^ 32)
    (hadv : meta.addr_current + p.data_chunk_size < 2 ^ 32) :
    (dc.data_addr ≠ meta.addr_current →
      dataChunkInner p hw meta dc =
        (.error (.SkippedRange meta.addr_current dc.data_addr), .BootLoad meta, hw)) ∧
    (dc.data_addr = meta.addr_current → dc.data.length ≠ p.data_chunk_size →
      dataChunkInner p hw meta dc =
        (.error (.IncorrectLength p.data_chunk_size dc.data.length), .BootLoad meta, hw)) ∧
    (dc.data_addr = meta.addr_current → dc.data.length = p.data_chunk_size →
      meta.addr_start + meta.length ≤ meta.addr_current →
      dataChunkInner p hw meta dc = (.error .TooManyChunks, .BootLoad meta, hw)) ∧
    (dc.data_addr = meta.addr_current → dc.data.length = p.data_chunk_size →
      meta.addr_current < meta.addr_start + meta.length →
      crc32 dc.data ≠ dc.sub_crc32 →
      dataChunkInner p hw meta dc =
        (.error (.BadSubCrc dc.sub_crc32 (crc32 dc.data)), .BootLoad meta, hw)) ∧
    (dc.data_addr = meta.addr_current → dc.data.length = p.data_chunk_size →
      meta.addr_current < meta.addr_start + meta.length →
      crc32 dc.data = dc.sub_crc32 →
      dataChunkInner p hw meta dc =
        (.ok (.ChunkAccepted dc.data_addr dc.data.length (crc32 dc.data)),
         .BootLoad { meta with
            digest_running := crcUpdate meta.digest_running dc.data,
            addr_current := meta.addr_current + p.data_chunk_size },
         { hw with flash := flashWrite hw.flash dc.data_addr dc.data })) ∧
    (∃ m2, (dataChunkInner p hw meta dc).2.1 = .BootLoad m2) := by
  have e1 : dc.data.length % 4294967296 = dc.data.length := by
    have h32 : (2 : Nat) ^ 32 = 4294967296 := by norm_num
    omega
  have e2 : add32 meta.addr_start meta.length = meta.addr_start + meta.length := by
    unfold add32
    exact Nat.mod_eq_of_lt hsum
  have e3 : add32 meta.addr_current p.data_chunk_size =
      meta.addr_current + p.data_chunk_size := by
    unfold add32
    exact Nat.mod_eq_of_lt hadv
  have echunk : p.data_chunk_size % 4294967296 = p.data_chunk_size := by
    have h32 : (2 : Nat) ^ 32 = 4294967296 := by norm_num
    omega
  refine ⟨?_, ?_, ?_, ?_, ?_, ?_⟩
  · intro h1
    simp [dataChunkInner, h1]
  · intro h1 h2
    simp [dataChunkInner, h1, e1, h2]
  · intro h1 h2 h3
    simp [dataChunkInner, h1, e1, h2, e2, h3, echunk]
  · intro h1 h2 h3 h4
    have h3n : ¬ (meta.addr_start + meta.length ≤ meta.addr_current) := by omega
    simp [dataChunkInner, h1, e1, h2, e2, h3n, h4, echunk]
  · intro h1 h2 h3 h4
    have h3n : ¬ (meta.addr_start + meta.length ≤ meta.addr_current) := by omega
    simp [dataChunkInner, h1, e1, h2, e2, e3, h3n, h4, echunk]
  · unfold dataChunkInner
    split_ifs <;> exact ⟨_, rfl⟩

/-- Witness for C1: an in-order chunk with correct length and sub-CRC is
accepted, programmed, folded into the digest, and advances the session. -/
theorem dataChunkInner_spec_witness :
    dataChunkInner testParams testHW testMeta
      ⟨32, crc32 (List.replicate 8 1), List.replicate 8 1⟩ =
      (.ok (.ChunkAccepted 32 8 (crc32 (List.replicate 8 1))),
       .BootLoad ⟨crcUpdate 0 (List.replicate 8 1), 16, 40, 32, 5⟩,
       { testHW with flash := flashWrite testHW.flash 32 (List.replicate 8 1) }) :=
  (dataChunkInner_spec testParams testHW testMeta
      ⟨32, crc32 (List.replicate 8 1), List.replicate 8 1⟩
      (by decide) (by decide) (by decide)).2.2.2.2.1 rfl (by decide) (by decide) rfl

/-- Modelled from the spec: `will_boot = match boot_opt: Some(ForceBoot) =>
true; Some(BootIfBootable) => matches bootable_status = Yes; None => false`
(§4.4 **CompleteBootload**), for comparison with `complete_inner`. -/
def willBootSpec (bootCmd : Option BootCommand) (bs : Bootable) : Bool :=
  match bootCmd with
  | some .ForceBoot => true
  | some .BootIfBootable => match bs with | .Yes _ _ => true | _ => false
  | none => false

/-- C2: `CompleteBootload` in mode `BootLoad`: an incomplete load answers
`IncompleteLoad` and keeps the session; a digest mismatch answers
`BadFullCrc` and destroys the session (mode `Idle`); otherwise the reply is
`ConfirmComplete { will_boot, boot_status = is_bootable() }` with
`will_boot` as specified, and the mode becomes `BootPending` exactly when
`will_boot` holds, else `Idle`. -/
theorem completeInner_spec (p : Parameters) (hw : FlashHW) (meta : BootLoadMeta)
    (bootCmd : Option BootCommand)
    (hsum : meta.addr_start + meta.length < 2 ^ 32)
    (hcur : meta.addr_current < 2 ^ 32)
    (hle : meta.addr_start ≤ meta.addr_current) :
    (meta.addr_start + meta.length ≠ meta.addr_current →
      completeInner p hw meta bootCmd =
        (.error (.IncompleteLoad meta.length (meta.addr_current - meta.addr_start)),
         .BootLoad meta)) ∧
    (meta.addr_start + meta.length = meta.addr_current →
      crcFinalize meta.digest_running ≠ meta.exp_crc →
      completeInner p hw meta bootCmd =
        (.error (.BadFullCrc meta.exp_crc (crcFinalize meta.digest_running)), .Idle)) ∧
    (meta.addr_start + meta.length = meta.addr_current →
      crcFinalize meta.digest_running = meta.exp_crc →
      completeInner p hw meta bootCmd =
        (.ok (.ConfirmComplete (willBootSpec bootCmd (isBootable p hw)) (isBootable p hw)),
         if willBootSpec bootCmd (isBootable p hw) then .BootPending else .Idle)) := by
  have e2 : add32 meta.addr_start meta.length = meta.addr_start + meta.length := by
    unfold add32
    exact Nat.mod_eq_of_lt hsum
  have esub : sub32 meta.addr_current meta.addr_start =
      meta.addr_current - meta.addr_start := by
    unfold sub32
    have h32 : (2 : Nat) ^ 32 = 4294967296 := by norm_num
    omega
  refine ⟨?_, ?_, ?_⟩
  · intro h1
    simp [completeInner, e2, esub, h1]
  · intro h1 h2
    simp [completeInner, e2, h1, h2]
  · intro h1 h2
    simp only [completeInner, e2, h1]
    rw [if_neg (by simp), if_neg (by simp [h2])]
    rfl

/-- Witness for C2: completing an unfinished session answers
`IncompleteLoad` with the loaded prefix length and keeps the session. -/
theorem completeInner_spec_witness :
    completeInner testParams testHW testMeta none =
      (.error (.IncompleteLoad 32 16), .BootLoad testMeta) :=
  (completeInner_spec testParams testHW testMeta none
      (by decide) (by decide) (by decide)).1 (by decide)

/-- C6: `GetStatus` in mode `BootLoad` derives `Started` when
`addr_current = addr_start`, `AwaitingComplete` when
`addr_current = addr_start + length`, and otherwise `Loading` whose
`partial_crc32` finalizes a clone of the running digest; the machine state
(session and digest included) is unchanged. -/
theorem handleGetStatus_spec (m : Machine) (meta : BootLoadMeta)
    (hmode : m.mode = .BootLoad meta)
    (hsum : meta.addr_start + meta.length < 2 ^ 32) :
    (meta.addr_start = meta.addr_current →
      handleGetStatus m =
        (.ok (.Status (.Started meta.addr_start meta.length meta.exp_crc)), m)) ∧
    (meta.addr_start ≠ meta.addr_current →
      meta.addr_current = meta.addr_start + meta.length →
      handleGetStatus m = (.ok (.Status .AwaitingComplete), m)) ∧
    (meta.addr_start ≠ meta.addr_current →
      meta.addr_current ≠ meta.addr_start + meta.length →
      handleGetStatus m =
        (.ok (.Status (.Loading meta.addr_start meta.addr_current
          (crcFinalize meta.digest_running) meta.exp_crc)), m)) ∧
    (handleGetStatus m).2 = m := by
  have e2 : add32 meta.addr_start meta.length = meta.addr_start + meta.length := by
    unfold add32
    exact Nat.mod_eq_of_lt hsum
  refine ⟨?_, ?_, ?_, ?_⟩
  · intro h1
    simp [handleGetStatus, hmode, h1]
  · intro h1 h2
    have h0 : meta.length ≠ 0 := by omega
    simp [handleGetStatus, hmode, e2, h1, h2, h0]
  · intro h1 h2
    simp [handleGetStatus, hmode, e2, h1, h2]
  · simp [handleGetStatus]

/-- Witness for C6: a mid-session `GetStatus` reports `Loading` with the
finalized digest clone and does not change the machine. -/
theorem handleGetStatus_spec_witness :
    handleGetStatus ⟨.BootLoad testMeta, testHW⟩ =
      (.ok (.Status (.Loading 16 32 (crcFinalize 0) 5)), ⟨.BootLoad testMeta, testHW⟩) :=
  (handleGetStatus_spec ⟨.BootLoad testMeta, testHW⟩ testMeta rfl
      (by decide)).2.2.1 (by decide) (by decide)

theorem fillResponse_error {m : Machine} {r : Except ResponseError Response}
    {e : ResponseError} (h : fillResponse m r = .error e) : r = .error e := by
  rcases r with e' | v
  · simpa [fillResponse] using h
  · cases v <;> simp [fillResponse] at h

theorem startInner_no_brl (p : Parameters) (hw : FlashHW) (sb : StartBootload)
    (a mx : Nat) : (startInner p hw sb).1 ≠ .error (.BadRangeLength a mx) := by
  unfold startInner
  split_ifs <;> simp

theorem dataChunkInner_no_brl (p : Parameters) (hw : FlashHW) (meta : BootLoadMeta)
    (dc : DataChunk) (a mx : Nat) :
    (dataChunkInner p hw meta dc).1 ≠ .error (.BadRangeLength a mx) := by
  unfold dataChunkInner
  split_ifs <;> simp

theorem completeInner_no_brl (p : Parameters) (hw : FlashHW) (meta : BootLoadMeta)
    (bootCmd : Option BootCommand) (a mx : Nat) :
    (completeInner p hw meta bootCmd).1 ≠ .error (.BadRangeLength a mx) := by
  unfold completeInner
  split_ifs <;> simp

theorem handleReadRange_eq (p : Parameters) (s l : Nat) :
    handleReadRange p s l =
      if s < p.valid_flash_range.1 then .error .BadRangeStart
      else if 2 ^ 32 ≤ s + l then .error .BadRangeEnd
      else if p.valid_flash_range.2 < s + l then .error .BadRangeEnd
      else .ok (.ReadRange s l []) := by
  unfold handleReadRange checkedAdd32
  rcases Nat.lt_or_ge s p.valid_flash_range.1 with h | h
  · rw [if_pos (show ¬ (p.valid_flash_range.1 ≤ s) by omega), if_pos h]
  · rw [if_neg (show ¬ ¬ (p.valid_flash_range.1 ≤ s) by omega),
        if_neg (show ¬ (s < p.valid_flash_range.1) by omega)]
    rcases Nat.lt_or_ge (s + l) (2 ^ 32) with h2 | h2
    · rw [if_pos h2]
      show (if s + l ≤ p.valid_flash_range.2 then
          (Except.ok (Response.ReadRange s l []) : Except ResponseError Response)
        else .error .BadRangeEnd) = _
      rcases le_or_lt (s + l) p.valid_flash_range.2 with h3 | h3
      · rw [if_pos h3, if_neg (by omega), if_neg (by omega)]
      · rw [if_neg (show ¬ (s + l ≤ p.valid_flash_range.2) by omega),
            if_neg (show ¬ (2 ^ 32 ≤ s + l) by omega), if_pos h3]
    · rw [if_neg (show ¬ (s + l < 2 ^ 32) by omega), if_pos h2]

theorem handleReadRange_no_brl (p : Parameters) (s l a mx : Nat) :
    handleReadRange p s l ≠ .error (.BadRangeLength a mx) := by
  rw [handleReadRange_eq]
  split_ifs <;> simp

/-- C9: `ReadRange` replies `BadRangeStart` exactly when the start address is
below the valid flash range, `BadRangeEnd` exactly when `start + len`
overflows `u32` or exceeds the top of the valid flash range, and otherwise
succeeds; the handler never consults `read_max`, and no code path of the
request dispatcher ever returns `BadRangeLength`. -/
theorem handleReadRange_spec (p : Parameters) (start len : Nat) :
    (handleReadRange p start len = .error .BadRangeStart ↔
      start < p.valid_flash_range.1) ∧
    (handleReadRange p start len = .error .BadRangeEnd ↔
      (p.valid_flash_range.1 ≤ start ∧
        (2 ^ 32 ≤ start + len ∨ p.valid_flash_range.2 < start + len))) ∧
    (p.valid_flash_range.1 ≤ start → start + len < 2 ^ 32 →
      start + len ≤ p.valid_flash_range.2 →
      handleReadRange p start len = .ok (.ReadRange start len [])) ∧
    (∀ rm1 rm2 : Nat,
      handleReadRange { p with read_max := rm1 } start len =
      handleReadRange { p with read_max := rm2 } start len) ∧
    (∀ (m : Machine) (req : Request) (a mx : Nat),
      (processReq p m req).1 ≠ .error (.BadRangeLength a mx)) := by
  refine ⟨?_, ?_, ?_, ?_, ?_⟩
  · rw [handleReadRange_eq]
    split_ifs <;> simp <;> omega
  · rw [handleReadRange_eq]
    split_ifs <;> simp <;> omega
  · intro h1 h2 h3
    rw [handleReadRange_eq]
    rw [if_neg (by omega), if_neg (by omega), if_neg (by omega)]
  · intro rm1 rm2
    unfold handleReadRange checkedAdd32
    rfl
  · intro m req a mx hcontra
    have hdisp := fillResponse_error hcontra
    revert hdisp
    cases req with
    | Ping n => simp [processReq]
    | GetParameters => simp [processReq]
    | GetSettings => simp [processReq]
    | GetStatus => simp [processReq, handleGetStatus]
    | IsBootable => simp [processReq]
    | Boot cmd => simp [processReq, handleBoot]
    | WriteSettings data =>
      simp only [processReq, handleWriteSettings]
      split_ifs <;> simp
    | ReadRange s l =>
      simpa [processReq] using handleReadRange_no_brl p s l a mx
    | AbortBootload =>
      rcases m with ⟨mode, hw⟩
      rcases mode with - | mt | - <;> simp [processReq, handleAbortBootload]
    | StartBootload sb =>
      rcases m with ⟨mode, hw⟩
      rcases mode with - | mt | -
      · rcases hsi : startInner p hw sb with ⟨resp, m2, h2⟩
        have := startInner_no_brl p hw sb a mx
        rw [hsi] at this
        simp [processReq, handleStartBootload, hsi]
        exact fun hc => this (by rw [hc])
      · simp [processReq, handleStartBootload]
      · simp [processReq, handleStartBootload]
    | DataChunk dc =>
      rcases m with ⟨mode, hw⟩
      rcases mode with - | mt | -
      · simp [processReq, handleDataChunk]
      · rcases hsi : dataChunkInner p hw mt dc with ⟨resp, m2, h2⟩
        have := dataChunkInner_no_brl p hw mt dc a mx
        rw [hsi] at this
        simp [processReq, handleDataChunk, hsi]
        exact fun hc => this (by rw [hc])
      · simp [processReq, handleDataChunk]
    | CompleteBootload boot =>
      rcases m with ⟨mode, hw⟩
      rcases mode with - | mt | -
      · simp [processReq, handleCompleteBootload]
      · rcases hsi : completeInner p hw mt boot with ⟨resp, m2⟩
        have := completeInner_no_brl p hw mt boot a mx
        rw [hsi] at this
        simp [processReq, handleCompleteBootload, hsi]
        exact fun hc => this (by rw [hc])
      · simp [processReq, handleCompleteBootload]

/-- Witness for C9: with the reference parameters a read of the whole flash
range succeeds, a read past the top fails `BadRangeEnd`, and a read that
would overflow fails `BadRangeEnd`. -/
theorem handleReadRange_spec_witness :
    handleReadRange stm32g031_params 0 65536 = .ok (.ReadRange 0 65536 []) ∧
    handleReadRange stm32g031_params 4 65536 = .error .BadRangeEnd ∧
    (handleReadRange stm32g031_params 0 65536 = .error .BadRangeStart ↔ (0 : Nat) < 0) :=
  ⟨(handleReadRange_spec stm32g031_params 0 65536).2.2.1 (by decide) (by norm_num)
      (by decide),
   (handleReadRange_spec stm32g031_params 4 65536).2.1.mpr
      ⟨by decide, Or.inr (by decide)⟩,
   (handleReadRange_spec stm32g031_params 0 65536).1⟩

/-- C4: frame decoding unstuffs the body in place (failure: `Cobs`), then
requires at least 5 unstuffed bytes (failure: `Underfill`), then splits off
the 4-byte little-endian CRC trailer and compares it with the CRC-32 of the
remaining prefix (failure: `Crc { expected, actual }` exactly on mismatch),
and only on a CRC match hands the prefix to the structural decoder, whose
failure surfaces as `PostcardDecode`. -/
theorem decodeInPlace_pipeline {α : Type} (des : List Nat → Option α)
    (body : List Nat) :
    (cobsDecodeBody body = none → decodeInPlace des body = .error .Cobs) ∧
    (∀ u, cobsDecodeBody body = some u → u.length < 5 →
      decodeInPlace des body = .error .Underfill) ∧
    (∀ u, cobsDecodeBody body = some u → 5 ≤ u.length →
      crc32 (u.take (u.length - 4)) ≠ leU32 (u.drop (u.length - 4)) →
      decodeInPlace des body =
        .error (.Crc (leU32 (u.drop (u.length - 4))) (crc32 (u.take (u.length - 4))))) ∧
    (∀ u, cobsDecodeBody body = some u → 5 ≤ u.length →
      crc32 (u.take (u.length - 4)) = leU32 (u.drop (u.length - 4)) →
      decodeInPlace des body =
        match des (u.take (u.length - 4)) with
        | some v => .ok v
        | none => .error .PostcardDecode) := by
  refine ⟨?_, ?_, ?_, ?_⟩
  · intro h
    simp [decodeInPlace, h]
  · intro u hu hlen
    simp [decodeInPlace, hu, hlen]
  · intro u hu hlen hcrc
    have h5 : ¬ (u.length < 5) := by omega
    have hne : leU32 (u.drop (u.length - 4)) ≠ crc32 (u.take (u.length - 4)) :=
      fun hh => hcrc hh.symm
    simp [decodeInPlace, hu, h5, hne]
  · intro u hu hlen hcrc
    have h5 : ¬ (u.length < 5) := by omega
    simp [decodeInPlace, hu, h5, hcrc.symm]

/-- Witness for C4: a truncated COBS block fails with `Cobs`; a frame whose
unstuffed body is shorter than five bytes fails with `Underfill`; a frame
with a wrong CRC trailer fails with `Crc`. -/
theorem decodeInPlace_pipeline_witness :
    decodeInPlace desRequest [5, 1, 2] = .error .Cobs ∧
    decodeInPlace desRequest [2, 9] = .error .Underfill ∧
    decodeInPlace desRequest [6, 7, 1, 2, 3, 4] =
      .error (.Crc (leU32 [1, 2, 3, 4]) (crc32 [7])) :=
  ⟨(decodeInPlace_pipeline desRequest [5, 1, 2]).1 (by decide),
   (decodeInPlace_pipeline desRequest [2, 9]).2.1 [9] (by decide) (by decide),
   (decodeInPlace_pipeline desRequest [6, 7, 1, 2, 3, 4]).2.2.1 [7, 1, 2, 3, 4]
     (by decide) (by decide) (by decide)⟩

/-- C7: encoding any `Request` or any `Response` value — structural encoding,
little-endian CRC-32 trailer over the structural bytes, byte stuffing, and
the `0x00` terminator — and then decoding the resulting frame yields the
original value exactly. -/
theorem encode_decode_roundtrip :
    (∀ req : Request, req.bounded →
      decodeInPlace desRequest (Request.encode_to_vec req) = .ok req) ∧
    (∀ resp : Response, resp.bounded →
      decodeInPlace desResponse (Response.encode_to_vec resp) = .ok resp) := by
  constructor
  · intro req h
    rw [Request.encode_to_vec,
      decodeInPlace_encodeFrame desRequest _ (putRequest_ne_nil req)]
    have h2 := @takeRequest_putRequest req [] h
    rw [List.append_nil] at h2
    simp [desRequest, h2]
  · intro resp h
    rw [Response.encode_to_vec,
      decodeInPlace_encodeFrame desResponse _ (putResponse_ne_nil resp)]
    have h2 := @takeResponse_putResponse resp [] h
    rw [List.append_nil] at h2
    simp [desResponse, h2]

/-- Witness for C7: round-trips of a concrete request and response. -/
theorem encode_decode_roundtrip_witness :
    decodeInPlace desRequest (Request.encode_to_vec (.Ping 300)) = .ok (.Ping 300) ∧
    decodeInPlace desResponse
      (Response.encode_to_vec (.Status .AwaitingComplete)) =
      .ok (.Status .AwaitingComplete) :=
  ⟨encode_decode_roundtrip.1 (.Ping 300) (by norm_num [Request.bounded]),
   encode_decode_roundtrip.2 (.Status .AwaitingComplete)
     (by norm_num [Response.bounded, Status.bounded])⟩

/-! ## The BootLoad session invariant (C3) -/

theorem isPow2_iff {n : Nat} : isPow2 n = true ↔ ∃ k, n = 2 ^ k := by
  constructor
  · intro h
    simp only [isPow2, Bool.and_eq_true, bne_iff_ne, ne_eq, beq_iff_eq] at h
    obtain ⟨hne, hand⟩ := h
    refine ⟨n.log2, ?_⟩
    by_contra hc
    have h1 : 2 ^ n.log2 ≤ n := Nat.log2_self_le hne
    have h2 : n < 2 ^ (n.log2 + 1) := Nat.lt_log2_self
    have hpow : 2 ^ (n.log2 + 1) = 2 * 2 ^ n.log2 := by
      rw [pow_succ]
      ring
    have h3 : 2 ^ n.log2 < n := by omega
    have ht1 : n.testBit n.log2 = true := by
      rw [Nat.testBit_to_div_mod]
      have hd : n / 2 ^ n.log2 = 1 := Nat.div_eq_of_lt_le (by omega) (by omega)
      simp [hd]
    have ht2 : (n - 1).testBit n.log2 = true := by
      rw [Nat.testBit_to_div_mod]
      have hd : (n - 1) / 2 ^ n.log2 = 1 := Nat.div_eq_of_lt_le (by omega) (by omega)
      simp [hd]
    have hz := congrArg (fun x => x.testBit n.log2) hand
    simp [Nat.testBit_and, ht1, ht2] at hz
  · rintro ⟨k, rfl⟩
    simp only [isPow2, Bool.and_eq_true, bne_iff_ne, ne_eq, beq_iff_eq]
    exact ⟨(Nat.pos_pow_of_pos k (by norm_num)).ne',
      by rw [Nat.and_pow_two_sub_one_eq_mod]; exact Nat.mod_self _⟩

/-- The session predicate stated by the spec's §3 invariant. -/
def SessionInv (p : Parameters) (meta : BootLoadMeta) : Prop :=
  meta.addr_start = p.valid_app_range.1 ∧
  meta.length % p.data_chunk_size = 0 ∧
  meta.length ≤ p.valid_app_range.2 - p.valid_app_range.1 ∧
  meta.addr_start ≤ meta.addr_current ∧
  meta.addr_current ≤ meta.addr_start + meta.length

/-- Strengthened inductive invariant: the loaded prefix is chunk-aligned. -/
def SessionInvStrong (p : Parameters) (meta : BootLoadMeta) : Prop :=
  SessionInv p meta ∧ (meta.addr_current - meta.addr_start) % p.data_chunk_size = 0

/-- Machine-level invariant: every `BootLoad` session satisfies the
strengthened session invariant. -/
def MachineInv (p : Parameters) (m : Machine) : Prop :=
  ∀ meta, m.mode = .BootLoad meta → SessionInvStrong p meta

theorem aligned_step {c a L : Nat} (hc : 0 < c) (ha : a % c = 0) (hL : L % c = 0)
    (hlt : a < L) : a + c ≤ L := by
  obtain ⟨x, rfl⟩ := Nat.dvd_of_mod_eq_zero ha
  obtain ⟨y, rfl⟩ := Nat.dvd_of_mod_eq_zero hL
  have hxy : x < y := Nat.lt_of_mul_lt_mul_left hlt
  calc c * x + c = c * (x + 1) := by ring
  _ ≤ c * y := Nat.mul_le_mul_left c hxy

theorem startInner_inv (p : Parameters) (hwf : p.wf) (hw : FlashHW)
    (sb : StartBootload) :
    ∀ meta, (startInner p hw sb).2.1 = .BootLoad meta → SessionInvStrong p meta := by
  obtain ⟨k, hk⟩ := isPow2_iff.mp hwf.chunk_pow2
  have hsub : sub32 p.valid_app_range.2 p.valid_app_range.1 =
      p.valid_app_range.2 - p.valid_app_range.1 := by
    have h1 := hwf.forwards
    have h2 : p.valid_app_range.2 < 2 ^ 32 :=
      lt_of_le_of_lt hwf.app_hi_le hwf.flash_hi_lt
    unfold sub32
    have h32 : (2 : Nat) ^ 32 = 4294967296 := by norm_num
    omega
  unfold startInner
  split_ifs with h1 h2
  · intro meta h
    simp at h
  · intro meta h
    simp at h
  · intro meta h
    simp only [Mode.BootLoad.injEq] at h
    subst h
    push_neg at h2
    obtain ⟨hlen_le, hmask⟩ := h2
    rw [hsub] at hlen_le
    have hmod : sb.length % p.data_chunk_size = 0 := by
      rw [hk] at hmask ⊢
      rwa [Nat.and_pow_two_sub_one_eq_mod] at hmask
    push_neg at h1
    exact ⟨⟨h1, hmod, hlen_le, le_rfl, Nat.le_add_right _ _⟩, by simp⟩

theorem dataChunkInner_inv (p : Parameters) (hwf : p.wf) (hw : FlashHW)
    (meta : BootLoadMeta) (dc : DataChunk) (hmi : SessionInvStrong p meta) :
    ∀ m2, (dataChunkInner p hw meta dc).2.1 = .BootLoad m2 → SessionInvStrong p m2 := by
  obtain ⟨⟨hstart, hlmod, hlle, hcle, hcub⟩, halign⟩ := hmi
  have hchunk : 0 < p.data_chunk_size := by
    have := hwf.page_ge8
    omega
  have hhi : p.valid_app_range.2 < 2 ^ 32 :=
    lt_of_le_of_lt hwf.app_hi_le hwf.flash_hi_lt
  have hsumlt : meta.addr_start + meta.length < 2 ^ 32 := by
    have := hwf.forwards
    omega
  have e2 : add32 meta.addr_start meta.length = meta.addr_start + meta.length := by
    unfold add32
    exact Nat.mod_eq_of_lt hsumlt
  unfold dataChunkInner
  split_ifs with h1 h2 h3 h4
  · intro m2 hm2
    simp only [Mode.BootLoad.injEq] at hm2
    subst hm2
    exact ⟨⟨hstart, hlmod, hlle, hcle, hcub⟩, halign⟩
  · intro m2 hm2
    simp only [Mode.BootLoad.injEq] at hm2
    subst hm2
    exact ⟨⟨hstart, hlmod, hlle, hcle, hcub⟩, halign⟩
  · intro m2 hm2
    simp only [Mode.BootLoad.injEq] at hm2
    subst hm2
    exact ⟨⟨hstart, hlmod, hlle, hcle, hcub⟩, halign⟩
  · intro m2 hm2
    simp only [Mode.BootLoad.injEq] at hm2
    subst hm2
    exact ⟨⟨hstart, hlmod, hlle, hcle, hcub⟩, halign⟩
  · intro m2 hm2
    simp only [Mode.BootLoad.injEq] at hm2
    rw [e2] at h3
    push_neg at h3
    have hstep : (meta.addr_current - meta.addr_start) + p.data_chunk_size ≤
        meta.length :=
      aligned_step hchunk halign hlmod (by omega)
    have hadvlt : meta.addr_current + p.data_chunk_size < 2 ^ 32 := by omega
    have e3 : add32 meta.addr_current p.data_chunk_size =
        meta.addr_current + p.data_chunk_size := by
      unfold add32
      exact Nat.mod_eq_of_lt hadvlt
    subst hm2
    refine ⟨⟨hstart, hlmod, hlle, ?_, ?_⟩, ?_⟩ <;> simp only [e3]
    · omega
    · omega
    · have : meta.addr_current + p.data_chunk_size - meta.addr_start =
          (meta.addr_current - meta.addr_start) + p.data_chunk_size := by omega
      rw [this, Nat.add_mod, halign, Nat.mod_self]
      simp

theorem processReq_inv (p : Parameters) (hwf : p.wf) (m : Machine) (req : Request)
    (hinv : MachineInv p m) : MachineInv p (processReq p m req).2 := by
  cases req with
  | Ping n => simpa [processReq] using hinv
  | GetParameters => simpa [processReq] using hinv
  | GetSettings => simpa [processReq] using hinv
  | GetStatus => simpa [processReq, handleGetStatus] using hinv
  | IsBootable => simpa [processReq] using hinv
  | ReadRange s l => simpa [processReq] using hinv
  | Boot cmd =>
    intro meta hmode
    simp [processReq, handleBoot] at hmode
  | WriteSettings data =>
    intro meta hmode
    simp only [processReq, handleWriteSettings] at hmode
    split_ifs at hmode
    · exact hinv meta hmode
    · exact hinv meta hmode
  | AbortBootload =>
    intro meta hmode
    rcases m with ⟨mode, hw⟩
    rcases mode with - | mt | - <;> simp [processReq, handleAbortBootload] at hmode
  | StartBootload sb =>
    intro meta hmode
    rcases m with ⟨mode, hw⟩
    rcases mode with - | mt | -
    · rcases hsi : startInner p hw sb with ⟨resp, mode2, hw2⟩
      have hinner := startInner_inv p hwf hw sb meta
      rw [hsi] at hinner
      simp only [processReq, handleStartBootload, hsi] at hmode
      exact hinner hmode
    · simp only [processReq, handleStartBootload] at hmode
      exact hinv _ hmode
    · simp [processReq, handleStartBootload] at hmode
  | DataChunk dc =>
    intro meta hmode
    rcases m with ⟨mode, hw⟩
    rcases mode with - | mt | -
    · simp [processReq, handleDataChunk] at hmode
    · rcases hsi : dataChunkInner p hw mt dc with ⟨resp, mode2, hw2⟩
      have hinner := dataChunkInner_inv p hwf hw mt dc (hinv mt rfl) meta
      rw [hsi] at hinner
      simp only [processReq, handleDataChunk, hsi] at hmode
      exact hinner hmode
    · simp [processReq, handleDataChunk] at hmode
  | CompleteBootload boot =>
    intro meta hmode
    rcases m with ⟨mode, hw⟩
    rcases mode with - | mt | -
    · simp [processReq, handleCompleteBootload] at hmode
    · rcases hsi : completeInner p hw mt boot with ⟨resp, mode2⟩
      simp only [processReq, handleCompleteBootload, hsi] at hmode
      have : mode2 = .BootLoad meta → SessionInvStrong p meta := by
        intro h2
        unfold completeInner at hsi
        split_ifs at hsi with hc1 hc2
        · obtain ⟨-, rfl⟩ := Prod.mk.injEq .. ▸ hsi
          simp only [Mode.BootLoad.injEq] at h2
          subst h2
          exact hinv mt rfl
        · obtain ⟨-, rfl⟩ := Prod.mk.injEq .. ▸ hsi
          simp at h2
        · obtain ⟨-, rfl⟩ := Prod.mk.injEq .. ▸ hsi
          split_ifs at h2 <;> simp at h2
      exact this hmode
    · simp [processReq, handleCompleteBootload] at hmode

theorem processAll_inv (p : Parameters) (hwf : p.wf) (m : Machine)
    (reqs : List Request) (hinv : MachineInv p m) :
    MachineInv p (processAll p m reqs) := by
  induction reqs generalizing m with
  | nil => exact hinv
  | cons req rest ih => exact ih _ (processReq_inv p hwf m req hinv)

/-- C3: from the initial `Idle` mode, after any sequence of processed
requests, every `BootLoad` session satisfies `addr_start =
valid_app_range.lo`, `length % data_chunk_size = 0`, `length ≤
valid_app_range.hi − valid_app_range.lo`, and `addr_start ≤ addr_current ≤
addr_start + length`. -/
theorem bootload_session_invariant (p : Parameters) (hwf : p.wf) (hw : FlashHW)
    (reqs : List Request) (meta : BootLoadMeta)
    (hmode : (processAll p (Machine.new hw) reqs).mode = .BootLoad meta) :
    SessionInv p meta := by
  have hinit : MachineInv p (Machine.new hw) := by
    intro m2 h
    simp [Machine.new] at h
  exact (processAll_inv p hwf (Machine.new hw) reqs hinit meta hmode).1

/-- Witness for C3: after a successful `StartBootload` the fresh session
satisfies the invariant. -/
theorem bootload_session_invariant_witness :
    SessionInv testParams ⟨0, 16, 16, 32, 5⟩ :=
  bootload_session_invariant testParams
    ⟨by decide, by decide, by decide, by decide, by decide, by decide, by decide,
     by decide, by decide, by decide⟩
    testHW [.StartBootload ⟨16, 32, 5⟩] ⟨0, 16, 16, 32, 5⟩ (by decide)

/-! ## Settings round-trip (C8) -/

/-- All numeric payloads of a `Setting` fit their Rust types (`F32` is its
four-byte bit pattern). -/
def Setting.bounded (s : Setting) : Prop :=
  s.name_ascii.length < 2 ^ 64 ∧
  match s.val with
  | .U32 v => v < 2 ^ 32
  | .F32 b => b < 2 ^ 32
  | .ByteSlice bs => bs.length < 2 ^ 64
  | .AsciiSlice bs => bs.length < 2 ^ 64

theorem takeF32_le32 {b : Nat} (r : List Nat) (h : b < 2 ^ 32) :
    takeF32 (le32 b ++ r) = some (b, r) := by
  unfold takeF32
  rw [if_pos (by simp [le32_length])]
  rw [List.take_left' (le32_length b), List.drop_left' (le32_length b), leU32_le32 _ h]

theorem takeSettingVal_putSettingVal {v : SettingVal} (r : List Nat)
    (h : match v with
      | .U32 n => n < 2 ^ 32
      | .F32 b => b < 2 ^ 32
      | .ByteSlice bs => bs.length < 2 ^ 64
      | .AsciiSlice bs => bs.length < 2 ^ 64) :
    takeSettingVal (putSettingVal v ++ r) = some (v, r) := by
  cases v with
  | U32 n =>
    simp [putSettingVal, takeSettingVal, List.append_assoc, putVarint_small,
      takeU32_small, takeU32_putVarint _ h]
  | F32 b =>
    simp [putSettingVal, takeSettingVal, List.append_assoc, putVarint_small,
      takeU32_small, takeF32_le32 _ h]
  | ByteSlice bs =>
    simp [putSettingVal, takeSettingVal, List.append_assoc, putVarint_small,
      takeU32_small, takeBytes_putBytes _ h]
  | AsciiSlice bs =>
    simp [putSettingVal, takeSettingVal, List.append_assoc, putVarint_small,
      takeU32_small, takeBytes_putBytes _ h]

theorem takeSetting_putSetting {s : Setting} (r : List Nat) (h : s.bounded) :
    takeSetting (putSetting s ++ r) = some (s, r) := by
  obtain ⟨hname, hval⟩ := h
  unfold putSetting takeSetting
  rw [List.append_assoc, takeBytes_putBytes _ hname]
  simp [takeSettingVal_putSettingVal _ hval]

theorem splitU32le_le32 {a : Nat} (r : List Nat) (h : a < 2 ^ 32) :
    splitU32le (le32 a ++ r) = some (a, r) := by
  unfold splitU32le
  rw [if_neg (by simp [le32_length])]
  rw [List.take_left' (le32_length a), List.drop_left' (le32_length a), leU32_le32 _ h]

theorem settingsIterList_concat (xs : List Setting) (hwf : ∀ s ∈ xs, s.bounded) :
    settingsIterList (xs.map putSetting).flatten = xs := by
  induction xs with
  | nil => rfl
  | cons s rest ih =>
    rw [List.map_cons, List.flatten_cons, settingsIterList_eq,
      takeSetting_putSetting _ (hwf s (by simp))]
    simp [ih (fun t ht => hwf t (by simp [ht]))]

/-- C8: writing any sequence of settings records with `settings_to_vec` and
reading the page back with `settings_from_raw` succeeds, and iterating the
returned settings iterator yields exactly the original records in order.
(The records' numeric fields fit their Rust types and the serialized payload
fits the page's `u32` length header.) -/
theorem settings_roundtrip (xs : List Setting) (hwf : ∀ s ∈ xs, s.bounded)
    (hlen : (xs.map putSetting).flatten.length < 2 ^ 32) :
    settingsFromRaw (settingsToVec xs) = some (xs.map putSetting).flatten ∧
    settingsIterList (xs.map putSetting).flatten = xs := by
  constructor
  · unfold settingsToVec settingsFromRaw
    have hmod : (xs.map putSetting).flatten.length % 2 ^ 32 =
        (xs.map putSetting).flatten.length := Nat.mod_eq_of_lt hlen
    rw [hmod]
    have hs1 := splitU32le_le32
      (le32 (xs.map putSetting).flatten.length ++ (xs.map putSetting).flatten)
      (crc32_lt (le32 (xs.map putSetting).flatten.length ++ (xs.map putSetting).flatten))
    have hs2 := splitU32le_le32 (xs.map putSetting).flatten hlen
    rw [List.append_assoc]
    simp only [hs1, hs2]
    rw [if_pos le_rfl, List.take_length, if_pos rfl]
  · exact settingsIterList_concat xs hwf

/-- Witness for C8: a two-record page round-trips. -/
theorem settings_roundtrip_witness :
    settingsFromRaw (settingsToVec [⟨[97], .U32 3⟩, ⟨[98], .F32 77⟩]) =
      some (([⟨[97], .U32 3⟩, ⟨[98], .F32 77⟩] : List Setting).map putSetting).flatten ∧
    settingsIterList
      (([⟨[97], .U32 3⟩, ⟨[98], .F32 77⟩] : List Setting).map putSetting).flatten =
      [⟨[97], .U32 3⟩, ⟨[98], .F32 77⟩] :=
  settings_roundtrip [⟨[97], .U32 3⟩, ⟨[98], .F32 77⟩]
    (by
      intro s hs
      simp only [List.mem_cons, List.not_mem_nil, or_false] at hs
      rcases hs with rfl | rfl <;> exact ⟨by decide, by decide⟩)
    (by decide)

/-! ## `is_bootable` characterization (C5, C10) -/

/-- Claim-side helper: the values of the `"app_len"` `U32` records among the
iterated settings, in order. -/
def lenVals (recs : List Setting) : List Nat :=
  recs.filterMap fun s => match s with
    | ⟨n, .U32 v⟩ => if n = appLenName then some v else none
    | _ => none

/-- Claim-side helper: the values of the `"app_crc"` `U32` records among the
iterated settings, in order. -/
def crcVals (recs : List Setting) : List Nat :=
  recs.filterMap fun s => match s with
    | ⟨n, .U32 v⟩ => if n = appCrcName then some v else none
    | _ => none

theorem lenVals_nil : lenVals [] = [] := rfl

theorem crcVals_nil : crcVals [] = [] := rfl

theorem lenVals_cons (n : List Nat) (v : SettingVal) (rest : List Setting) :
    lenVals (⟨n, v⟩ :: rest) =
      (match v with
       | .U32 w => if n = appLenName then [w] else []
       | _ => []) ++ lenVals rest := by
  rcases v with w | b | bs | bs
  · by_cases hn : n = appLenName <;> simp [lenVals, List.filterMap_cons, hn]
  · simp [lenVals, List.filterMap_cons]
  · simp [lenVals, List.filterMap_cons]
  · simp [lenVals, List.filterMap_cons]

theorem crcVals_cons (n : List Nat) (v : SettingVal) (rest : List Setting) :
    crcVals (⟨n, v⟩ :: rest) =
      (match v with
       | .U32 w => if n = appCrcName then [w] else []
       | _ => []) ++ crcVals rest := by
  rcases v with w | b | bs | bs
  · by_cases hn : n = appCrcName <;> simp [crcVals, List.filterMap_cons, hn]
  · simp [crcVals, List.filterMap_cons]
  · simp [crcVals, List.filterMap_cons]
  · simp [crcVals, List.filterMap_cons]

theorem appInfoLoop_spec : ∀ (recs : List Setting) (al ac : Option Nat),
    appInfoLoop recs al ac =
      if (al.toList ++ lenVals recs).length ≤ 1 ∧
          (ac.toList ++ crcVals recs).length ≤ 1 then
        .ok ((al.toList ++ lenVals recs).head?, (ac.toList ++ crcVals recs).head?)
      else .error .NoDuplicateSettings := by
  intro recs
  induction recs with
  | nil =>
    intro al ac
    rcases al with - | a <;> rcases ac with - | c <;>
      simp [appInfoLoop, lenVals_nil, crcVals_nil]
  | cons s rest ih =>
    intro al ac
    obtain ⟨n, v⟩ := s
    rcases v with v | b | bs | bs
    · by_cases hn : n = appLenName
      · subst hn
        rcases al with - | a
        · show appInfoLoop rest (some v) ac = _
          rw [ih]
          simp only [lenVals_cons, crcVals_cons, if_pos (rfl : appLenName = appLenName),
            if_neg (by decide : ¬ appLenName = appCrcName), Option.toList_some,
            Option.toList_none, List.nil_append, List.singleton_append, if_true]
        · show Except.error Bootable.NoDuplicateSettings = _
          rw [if_neg]
          intro hcon
          rcases hcon with ⟨h1, -⟩
          rw [lenVals_cons] at h1
          simp only [if_pos (rfl : appLenName = appLenName), Option.toList_some,
            List.length_append, List.length_cons, List.singleton_append,
            List.length_singleton, if_true] at h1
          omega
      · by_cases hn2 : n = appCrcName
        · subst hn2
          rcases ac with - | c
          · show appInfoLoop rest al (some v) = _
            rw [ih]
            simp only [lenVals_cons, crcVals_cons, if_neg hn,
              if_pos (rfl : appCrcName = appCrcName), Option.toList_some,
              Option.toList_none, List.nil_append, List.singleton_append, if_true]
          · show Except.error Bootable.NoDuplicateSettings = _
            rw [if_neg]
            intro hcon
            rcases hcon with ⟨-, h2⟩
            rw [crcVals_cons] at h2
            simp only [if_pos (rfl : appCrcName = appCrcName), Option.toList_some,
              List.length_append, List.length_cons, List.singleton_append,
              List.length_singleton, if_true] at h2
            omega
        · simp only [appInfoLoop, if_neg hn, if_neg hn2]
          rw [ih]
          simp only [lenVals_cons, crcVals_cons, if_neg hn, if_neg hn2,
            List.nil_append]
    · show appInfoLoop rest al ac = _
      rw [ih]
      simp only [lenVals_cons, crcVals_cons, List.nil_append]
    · show appInfoLoop rest al ac = _
      rw [ih]
      simp only [lenVals_cons, crcVals_cons, List.nil_append]
    · show appInfoLoop rest al ac = _
      rw [ih]
      simp only [lenVals_cons, crcVals_cons, List.nil_append]

theorem readRange_append (hw : FlashHW) (start m k : Nat) :
    readRange hw start (m + k) =
      readRange hw start m ++ readRange hw (start + m) k := by
  simp only [readRange, List.range_add, List.map_append, List.map_map]
  congr 1
  refine List.map_congr_left fun i _ => ?_
  simp [Function.comp, Nat.add_assoc]

theorem bootableLoopAux_spec (p : Parameters) (hw : FlashHW)
    (hchunk : 0 < p.data_chunk_size) :
    ∀ (fuel cur endd digest : Nat), endd - cur ≤ fuel →
      p.data_chunk_size ∣ (endd - cur) → endd ≤ 2 ^ 32 - 1 →
      bootableLoopAux p hw fuel digest cur endd =
        crcUpdate digest (readRange hw cur (endd - cur)) := by
  intro fuel
  induction fuel with
  | zero =>
    intro cur endd digest hf hdvd hlt
    have h0 : endd - cur = 0 := Nat.le_zero.mp hf
    rw [h0]
    rfl
  | succ fuel ih =>
    intro cur endd digest hf hdvd hlt
    by_cases hcur : cur < endd
    · have hc_le : p.data_chunk_size ≤ endd - cur := Nat.le_of_dvd (by omega) hdvd
      have hsat : satAdd32 cur p.data_chunk_size = cur + p.data_chunk_size := by
        simp only [satAdd32]
        omega
      simp only [bootableLoopAux, if_pos hcur, hsat]
      have h1 : endd - (cur + p.data_chunk_size) ≤ fuel := by omega
      have h2 : p.data_chunk_size ∣ endd - (cur + p.data_chunk_size) := by
        have : endd - (cur + p.data_chunk_size) = (endd - cur) - p.data_chunk_size := by
          omega
        rw [this]
        exact Nat.dvd_sub' hdvd dvd_rfl
      rw [ih (cur + p.data_chunk_size) endd _ h1 h2 hlt, ← crcUpdate_append]
      congr 1
      rw [← readRange_append]
      congr 1
      omega
    · have h0 : endd - cur = 0 := by omega
      rw [h0]
      simp [bootableLoopAux, hcur, readRange, crcUpdate]

theorem bootableLoop_spec (p : Parameters) (hw : FlashHW)
    (hchunk : 0 < p.data_chunk_size) (digest cur endd : Nat)
    (hdvd : p.data_chunk_size ∣ (endd - cur)) (hlt : endd ≤ 2 ^ 32 - 1) :
    bootableLoop p hw digest cur endd =
      crcUpdate digest (readRange hw cur (endd - cur)) :=
  bootableLoopAux_spec p hw hchunk _ cur endd digest le_rfl hdvd hlt

theorem getAppInfo_eq (rawStg : List Nat) (p : Parameters) :
    getAppInfo rawStg p =
      match settingsFromRaw rawStg with
      | none => .NoMissingSettings
      | some remain =>
        if 2 ≤ (lenVals (settingsIterList remain)).length
            ∨ 2 ≤ (crcVals (settingsIterList remain)).length then
          .NoDuplicateSettings
        else
          match (lenVals (settingsIterList remain)).head?,
              (crcVals (settingsIterList remain)).head? with
          | some appLen, some appCrc =>
            if appLen > sub32 p.valid_app_range.2 p.valid_app_range.1
                ∨ appLen < p.data_chunk_size ∨ ¬ isPow2 appLen then
              .NoInvalidSettings
            else .Yes appCrc appLen
          | _, _ => .NoMissingSettings := by
  cases hr : settingsFromRaw rawStg with
  | none => simp only [getAppInfo, hr]
  | some remain =>
    simp only [getAppInfo, hr]
    rw [appInfoLoop_spec]
    simp only [Option.toList_none, List.nil_append]
    by_cases hcond : (lenVals (settingsIterList remain)).length ≤ 1 ∧
        (crcVals (settingsIterList remain)).length ≤ 1
    · rw [if_pos hcond, if_neg (by omega)]
      cases hL : (lenVals (settingsIterList remain)).head? with
      | none => cases hC : (crcVals (settingsIterList remain)).head? <;> rfl
      | some appLen => cases hC : (crcVals (settingsIterList remain)).head? <;> rfl
    · rw [if_neg hcond, if_pos (by omega)]

theorem head_eq_singleton {L : List Nat} {x : Nat}
    (h1 : L.length ≤ 1) (h2 : L.head? = some x) : L = [x] := by
  cases L with
  | nil => cases h2
  | cons a t =>
    cases t with
    | nil =>
      cases h2
      rfl
    | cons b t2 => simp at h1

theorem getAppInfo_eq_none {rawStg : List Nat} (p : Parameters)
    (hr : settingsFromRaw rawStg = none) :
    getAppInfo rawStg p = .NoMissingSettings := by
  rw [getAppInfo_eq, hr]

theorem getAppInfo_eq_some {rawStg bytes : List Nat} (p : Parameters)
    (hr : settingsFromRaw rawStg = some bytes) :
    getAppInfo rawStg p =
      if 2 ≤ (lenVals (settingsIterList bytes)).length
          ∨ 2 ≤ (crcVals (settingsIterList bytes)).length then
        .NoDuplicateSettings
      else
        match (lenVals (settingsIterList bytes)).head?,
            (crcVals (settingsIterList bytes)).head? with
        | some appLen, some appCrc =>
          if appLen > sub32 p.valid_app_range.2 p.valid_app_range.1
              ∨ appLen < p.data_chunk_size ∨ ¬ isPow2 appLen then
            .NoInvalidSettings
          else .Yes appCrc appLen
        | _, _ => .NoMissingSettings := by
  rw [getAppInfo_eq, hr]

theorem getAppInfo_yes_iff (rawStg : List Nat) (p : Parameters) (appCrc appLen : Nat) :
    getAppInfo rawStg p = .Yes appCrc appLen ↔
      ∃ bytes, settingsFromRaw rawStg = some bytes ∧
        lenVals (settingsIterList bytes) = [appLen] ∧
        crcVals (settingsIterList bytes) = [appCrc] ∧
        appLen ≤ sub32 p.valid_app_range.2 p.valid_app_range.1 ∧
        p.data_chunk_size ≤ appLen ∧ isPow2 appLen = true := by
  cases hr : settingsFromRaw rawStg with
  | none =>
    rw [getAppInfo_eq_none p hr]
    simp
  | some bytes =>
    rw [getAppInfo_eq_some p hr]
    constructor
    · intro h
      by_cases hdup : 2 ≤ (lenVals (settingsIterList bytes)).length
          ∨ 2 ≤ (crcVals (settingsIterList bytes)).length
      · rw [if_pos hdup] at h
        cases h
      · rw [if_neg hdup] at h
        push_neg at hdup
        cases hL : (lenVals (settingsIterList bytes)).head? with
        | none =>
          rw [hL] at h
          simp at h
        | some x =>
          cases hC : (crcVals (settingsIterList bytes)).head? with
          | none =>
            rw [hL, hC] at h
            simp at h
          | some y =>
            rw [hL, hC] at h
            have h2 : (if x > sub32 p.valid_app_range.2 p.valid_app_range.1
                ∨ x < p.data_chunk_size ∨ ¬ isPow2 x then Bootable.NoInvalidSettings
                else Bootable.Yes y x) = Bootable.Yes appCrc appLen := h
            by_cases hbad : x > sub32 p.valid_app_range.2 p.valid_app_range.1
                ∨ x < p.data_chunk_size ∨ ¬ isPow2 x
            · rw [if_pos hbad] at h2
              cases h2
            · rw [if_neg hbad] at h2
              injection h2 with hy hx
              subst hy
              subst hx
              push_neg at hbad
              exact ⟨bytes, rfl,
                head_eq_singleton (by omega) hL,
                head_eq_singleton (by omega) hC,
                by omega, by omega, by simpa using hbad.2.2⟩
    · rintro ⟨bytes', hb, hL, hC, hle, hcl, hpow⟩
      injection hb with hb'
      subst hb'
      rw [if_neg (show ¬ (2 ≤ (lenVals (settingsIterList bytes)).length
          ∨ 2 ≤ (crcVals (settingsIterList bytes)).length) by rw [hL, hC]; simp)]
      rw [hL, hC]
      simp only [List.head?_cons]
      rw [if_neg]
      intro hcon
      rcases hcon with hcon | hcon | hcon
      · omega
      · omega
      · exact hcon hpow

/-- C5: `is_bootable` returns `Yes{crc32, length}` iff the settings page
parses, exactly one `"app_len"` `U32` record and exactly one `"app_crc"` `U32`
record are present, `app_len` is a power of two with
`data_chunk_size ≤ app_len ≤ valid_app_range.hi − valid_app_range.lo`, and the
CRC-32 of the flash bytes in `[valid_app_range.lo, valid_app_range.lo +
app_len)` equals `app_crc`; in the `Yes` case the reported `crc32` is
`app_crc` and `length` is `app_len`.  A duplicate record yields
`NoDuplicateSettings`, a missing one (without a duplicate) yields
`NoMissingSettings`, failed `app_len` bounds yield `NoInvalidSettings`, and an
image-CRC mismatch yields `NoInvalidCrc`.  (The chunked loop reads
`data_chunk_size`-sized reads in address order; `bootableLoop_spec` equates it
with the flat read used here.) -/
theorem isBootable_spec (p : Parameters) (hwf : p.wf) (hw : FlashHW) :
    (∀ c l, isBootable p hw = .Yes c l ↔
      (∃ bytes, settingsFromRaw hw.settings = some bytes ∧
        lenVals (settingsIterList bytes) = [l] ∧
        crcVals (settingsIterList bytes) = [c] ∧
        isPow2 l = true ∧ p.data_chunk_size ≤ l ∧
        l ≤ p.valid_app_range.2 - p.valid_app_range.1 ∧
        crc32 (readRange hw p.valid_app_range.1 l) = c)) ∧
    (∀ bytes, settingsFromRaw hw.settings = some bytes →
      2 ≤ (lenVals (settingsIterList bytes)).length ∨
        2 ≤ (crcVals (settingsIterList bytes)).length →
      isBootable p hw = .NoDuplicateSettings) ∧
    (∀ bytes, settingsFromRaw hw.settings = some bytes →
      (lenVals (settingsIterList bytes)).length ≤ 1 →
      (crcVals (settingsIterList bytes)).length ≤ 1 →
      (lenVals (settingsIterList bytes) = [] ∨ crcVals (settingsIterList bytes) = []) →
      isBootable p hw = .NoMissingSettings) ∧
    (∀ bytes l c, settingsFromRaw hw.settings = some bytes →
      lenVals (settingsIterList bytes) = [l] →
      crcVals (settingsIterList bytes) = [c] →
      ¬ (isPow2 l = true ∧ p.data_chunk_size ≤ l ∧
          l ≤ p.valid_app_range.2 - p.valid_app_range.1) →
      isBootable p hw = .NoInvalidSettings) ∧
    (∀ bytes l c, settingsFromRaw hw.settings = some bytes →
      lenVals (settingsIterList bytes) = [l] →
      crcVals (settingsIterList bytes) = [c] →
      isPow2 l = true → p.data_chunk_size ≤ l →
      l ≤ p.valid_app_range.2 - p.valid_app_range.1 →
      crc32 (readRange hw p.valid_app_range.1 l) ≠ c →
      isBootable p hw = .NoInvalidCrc) := by
  have hchunk_pos : 0 < p.data_chunk_size := by
    have := hwf.page_ge8
    omega
  have hhi : p.valid_app_range.2 < 2 ^ 32 :=
    lt_of_le_of_lt hwf.app_hi_le hwf.flash_hi_lt
  have hlohi := hwf.forwards
  have hsub : sub32 p.valid_app_range.2 p.valid_app_range.1
      = p.valid_app_range.2 - p.valid_app_range.1 := by
    unfold sub32
    omega
  have hrun : ∀ l c, isPow2 l = true → p.data_chunk_size ≤ l →
      l ≤ p.valid_app_range.2 - p.valid_app_range.1 →
      getAppInfo hw.settings p = .Yes c l →
      isBootable p hw =
        (if crc32 (readRange hw p.valid_app_range.1 l) = c then
          .Yes (crc32 (readRange hw p.valid_app_range.1 l)) l
        else .NoInvalidCrc) := by
    intro l c hpow hcl hlhi hg
    have hadd : add32 p.valid_app_range.1 l = p.valid_app_range.1 + l := by
      unfold add32
      omega
    have hdvd : p.data_chunk_size ∣ l := by
      obtain ⟨a, ha⟩ := isPow2_iff.mp hpow
      obtain ⟨b, hb⟩ := isPow2_iff.mp hwf.chunk_pow2
      rw [ha, hb]
      rw [ha, hb] at hcl
      exact pow_dvd_pow 2 ((Nat.pow_le_pow_iff_right (by norm_num)).mp hcl)
    simp only [isBootable, hg]
    rw [hadd, bootableLoop_spec p hw hchunk_pos 0 p.valid_app_range.1
      (p.valid_app_range.1 + l) (by rw [Nat.add_sub_cancel_left]; exact hdvd)
      (by omega), Nat.add_sub_cancel_left]
    rfl
  refine ⟨fun c l => ⟨?_, ?_⟩, ?_, ?_, ?_, ?_⟩
  · intro h
    cases hg : getAppInfo hw.settings p with
    | Yes appCrc appLen =>
      obtain ⟨bytes, hb, hL, hC, hle, hcl, hpow⟩ :=
        (getAppInfo_yes_iff hw.settings p appCrc appLen).mp hg
      rw [hsub] at hle
      rw [hrun appLen appCrc hpow hcl hle hg] at h
      by_cases hcrc : crc32 (readRange hw p.valid_app_range.1 appLen) = appCrc
      · rw [if_pos hcrc] at h
        injection h with h1 h2
        subst h2
        have hac : appCrc = c := by rw [← hcrc, h1]
        exact ⟨bytes, hb, hL, hac ▸ hC, hpow, hcl, hle, h1⟩
      · rw [if_neg hcrc] at h
        cases h
    | Unsure => rw [isBootable, hg] at h; cases h
    | NoMissingSettings => rw [isBootable, hg] at h; cases h
    | NoDuplicateSettings => rw [isBootable, hg] at h; cases h
    | NoInvalidSettings => rw [isBootable, hg] at h; cases h
    | NoInvalidCrc => rw [isBootable, hg] at h; cases h
  · rintro ⟨bytes, hb, hL, hC, hpow, hcl, hlh, hcrc⟩
    have hg : getAppInfo hw.settings p = .Yes c l :=
      (getAppInfo_yes_iff hw.settings p c l).mpr
        ⟨bytes, hb, hL, hC, by rw [hsub]; exact hlh, hcl, hpow⟩
    rw [hrun l c hpow hcl hlh hg, if_pos hcrc, hcrc]
  · intro bytes hb hdup
    have hg : getAppInfo hw.settings p = .NoDuplicateSettings := by
      rw [getAppInfo_eq_some p hb, if_pos hdup]
    rw [isBootable, hg]
  · intro bytes hb h1 h2 hmiss
    have hg : getAppInfo hw.settings p = .NoMissingSettings := by
      rw [getAppInfo_eq_some p hb, if_neg (by omega)]
      rcases hmiss with hmiss | hmiss
      · rw [hmiss]
        simp
      · rw [hmiss]
        cases hL : (lenVals (settingsIterList bytes)).head? <;> simp
    rw [isBootable, hg]
  · intro bytes l c hb hL hC hbad
    have hg : getAppInfo hw.settings p = .NoInvalidSettings := by
      rw [getAppInfo_eq_some p hb, if_neg (by rw [hL, hC]; simp), hL, hC]
      simp only [List.head?_cons]
      rw [if_pos]
      rw [hsub]
      by_contra hcon
      push_neg at hcon
      exact hbad ⟨by simpa using hcon.2.2, hcon.2.1, hcon.1⟩
    rw [isBootable, hg]
  · intro bytes l c hb hL hC hpow hcl hlh hcrc
    have hg : getAppInfo hw.settings p = .Yes c l :=
      (getAppInfo_yes_iff hw.settings p c l).mpr
        ⟨bytes, hb, hL, hC, by rw [hsub]; exact hlh, hcl, hpow⟩
    rw [hrun l c hpow hcl hlh hg, if_neg hcrc]

theorem isBootable_spec_witness :
    isBootable testParams
      ⟨fun _ => 0xA5,
        [76, 216, 60, 168, 24, 0, 0, 0, 7, 97, 112, 112, 95, 108, 101, 110, 0, 8,
         7, 97, 112, 112, 95, 99, 114, 99, 0, 148, 241, 162, 198, 4]⟩ =
      Bootable.Yes 1221114004 8 := by
  refine ((isBootable_spec testParams (by constructor <;> decide) _).1 1221114004 8).mpr
    ⟨[7, 97, 112, 112, 95, 108, 101, 110, 0, 8, 7, 97, 112, 112, 95, 99, 114, 99, 0,
      148, 241, 162, 198, 4], ?_, ?_, ?_, ?_, ?_, ?_, ?_⟩
  · have hcrc : crc32 [24, 0, 0, 0, 7, 97, 112, 112, 95, 108, 101, 110, 0, 8, 7, 97,
        112, 112, 95, 99, 114, 99, 0, 148, 241, 162, 198, 4] = 2822559820 := by
      simp [crc32, crcUpdate, crcFinalize, crcByte_eq, crcStep, crcPoly, Nat.testBit]
    have hs1 : splitU32le [76, 216, 60, 168, 24, 0, 0, 0, 7, 97, 112, 112, 95,
        108, 101, 110, 0, 8, 7, 97, 112, 112, 95, 99, 114, 99, 0, 148, 241, 162,
        198, 4] = some (2822559820, [24, 0, 0, 0, 7, 97, 112, 112, 95, 108, 101,
        110, 0, 8, 7, 97, 112, 112, 95, 99, 114, 99, 0, 148, 241, 162, 198, 4]) := by
      decide
    have hs2 : splitU32le [24, 0, 0, 0, 7, 97, 112, 112, 95, 108, 101, 110, 0, 8,
        7, 97, 112, 112, 95, 99, 114, 99, 0, 148, 241, 162, 198, 4] =
        some (24, [7, 97, 112, 112, 95, 108, 101, 110, 0, 8, 7, 97, 112, 112, 95,
        99, 114, 99, 0, 148, 241, 162, 198, 4]) := by
      decide
    show settingsFromRaw [76, 216, 60, 168, 24, 0, 0, 0, 7, 97, 112, 112, 95, 108,
        101, 110, 0, 8, 7, 97, 112, 112, 95, 99, 114, 99, 0, 148, 241, 162, 198, 4]
      = some [7, 97, 112, 112, 95, 108, 101, 110, 0, 8, 7, 97, 112, 112, 95, 99,
        114, 99, 0, 148, 241, 162, 198, 4]
    simp only [settingsFromRaw, hs1, hs2]
    rw [if_pos (show (24 : Nat) ≤ ([7, 97, 112, 112, 95, 108, 101, 110, 0, 8, 7,
      97, 112, 112, 95, 99, 114, 99, 0, 148, 241, 162, 198, 4] : List Nat).length
      by decide)]
    rw [show ([7, 97, 112, 112, 95, 108, 101, 110, 0, 8, 7, 97, 112, 112, 95, 99,
      114, 99, 0, 148, 241, 162, 198, 4] : List Nat).take 24 = [7, 97, 112, 112,
      95, 108, 101, 110, 0, 8, 7, 97, 112, 112, 95, 99, 114, 99, 0, 148, 241, 162,
      198, 4] from by decide]
    rw [show le32 24 ++ ([7, 97, 112, 112, 95, 108, 101, 110, 0, 8, 7, 97, 112,
      112, 95, 99, 114, 99, 0, 148, 241, 162, 198, 4] : List Nat) = [24, 0, 0, 0,
      7, 97, 112, 112, 95, 108, 101, 110, 0, 8, 7, 97, 112, 112, 95, 99, 114, 99,
      0, 148, 241, 162, 198, 4] from rfl]
    rw [if_pos hcrc]
  · decide
  · decide
  · decide
  · decide
  · decide
  · have himg : readRange ⟨fun _ => 0xA5,
        [76, 216, 60, 168, 24, 0, 0, 0, 7, 97, 112, 112, 95, 108, 101, 110, 0, 8,
         7, 97, 112, 112, 95, 99, 114, 99, 0, 148, 241, 162, 198, 4]⟩
        testParams.valid_app_range.1 8 =
        [165, 165, 165, 165, 165, 165, 165, 165] := rfl
    rw [himg]
    simp [crc32, crcUpdate, crcFinalize, crcByte_eq, crcStep, crcPoly, Nat.testBit]

theorem getAppInfo_ne_unsure (rawStg : List Nat) (p : Parameters) :
    getAppInfo rawStg p ≠ .Unsure := by
  intro h
  cases hr : settingsFromRaw rawStg with
  | none =>
    rw [getAppInfo_eq_none p hr] at h
    cases h
  | some bytes =>
    rw [getAppInfo_eq_some p hr] at h
    by_cases hdup : 2 ≤ (lenVals (settingsIterList bytes)).length
        ∨ 2 ≤ (crcVals (settingsIterList bytes)).length
    · rw [if_pos hdup] at h
      cases h
    · rw [if_neg hdup] at h
      cases hL : (lenVals (settingsIterList bytes)).head? with
      | none =>
        rw [hL] at h
        simp at h
      | some x =>
        cases hC : (crcVals (settingsIterList bytes)).head? with
        | none =>
          rw [hL, hC] at h
          simp at h
        | some y =>
          rw [hL, hC] at h
          have h2 : (if x > sub32 p.valid_app_range.2 p.valid_app_range.1
              ∨ x < p.data_chunk_size ∨ ¬ isPow2 x then Bootable.NoInvalidSettings
              else Bootable.Yes y x) = Bootable.Unsure := h
          by_cases hbad : x > sub32 p.valid_app_range.2 p.valid_app_range.1
              ∨ x < p.data_chunk_size ∨ ¬ isPow2 x
          · rw [if_pos hbad] at h2
            cases h2
          · rw [if_neg hbad] at h2
            cases h2

/-- C10: `is_bootable` never returns `Unsure`; every settings page that fails
to parse — shorter than the 8-byte header, declared payload length exceeding
the available bytes, or settings-block CRC mismatch — makes `settings_from_raw`
fail, which yields `NoMissingSettings`, the same result as a well-formed page
that lacks the `"app_len"` or `"app_crc"` record (absent duplicates). -/
theorem isBootable_no_unsure (p : Parameters) (hw : FlashHW) :
    (isBootable p hw ≠ .Unsure) ∧
    (settingsFromRaw hw.settings = none → isBootable p hw = .NoMissingSettings) ∧
    (∀ raw : List Nat, raw.length < 8 → settingsFromRaw raw = none) ∧
    (∀ raw : List Nat, 8 ≤ raw.length →
      raw.length - 8 < leU32 ((raw.drop 4).take 4) → settingsFromRaw raw = none) ∧
    (∀ raw : List Nat, 8 ≤ raw.length →
      leU32 ((raw.drop 4).take 4) ≤ raw.length - 8 →
      crc32 (le32 (leU32 ((raw.drop 4).take 4)) ++
        (raw.drop 8).take (leU32 ((raw.drop 4).take 4))) ≠ leU32 (raw.take 4) →
      settingsFromRaw raw = none) ∧
    (∀ bytes, settingsFromRaw hw.settings = some bytes →
      (lenVals (settingsIterList bytes) = [] ∨ crcVals (settingsIterList bytes) = []) →
      (lenVals (settingsIterList bytes)).length ≤ 1 →
      (crcVals (settingsIterList bytes)).length ≤ 1 →
      isBootable p hw = .NoMissingSettings) := by
  refine ⟨?_, ?_, ?_, ?_, ?_, ?_⟩
  · intro h
    cases hg : getAppInfo hw.settings p with
    | Unsure => exact getAppInfo_ne_unsure hw.settings p hg
    | Yes appCrc appLen =>
      rw [isBootable, hg] at h
      have h2 : (if crcFinalize (bootableLoop p hw 0 p.valid_app_range.1
          (add32 p.valid_app_range.1 appLen)) = appCrc then
            Bootable.Yes (crcFinalize (bootableLoop p hw 0 p.valid_app_range.1
              (add32 p.valid_app_range.1 appLen))) appLen
          else Bootable.NoInvalidCrc) = Bootable.Unsure := h
      by_cases hcc : crcFinalize (bootableLoop p hw 0 p.valid_app_range.1
          (add32 p.valid_app_range.1 appLen)) = appCrc
      · rw [if_pos hcc] at h2
        cases h2
      · rw [if_neg hcc] at h2
        cases h2
    | NoMissingSettings => rw [isBootable, hg] at h; cases h
    | NoDuplicateSettings => rw [isBootable, hg] at h; cases h
    | NoInvalidSettings => rw [isBootable, hg] at h; cases h
    | NoInvalidCrc => rw [isBootable, hg] at h; cases h
  · intro hnone
    rw [isBootable, getAppInfo_eq_none p hnone]
  · intro raw hlen
    by_cases h4 : raw.length < 4
    · simp [settingsFromRaw, splitU32le, h4]
    · have h4' : raw.length - 4 < 4 := by omega
      simp [settingsFromRaw, splitU32le, h4, h4', List.length_drop]
  · intro raw h8 hdecl
    have h4 : ¬ raw.length < 4 := by omega
    have h4' : ¬ (raw.drop 4).length < 4 := by
      rw [List.length_drop]
      omega
    simp only [settingsFromRaw, splitU32le, if_neg h4, if_neg h4']
    rw [if_neg]
    rw [List.drop_drop, List.length_drop]
    omega
  · intro raw h8 hdecl hcrc
    have h4 : ¬ raw.length < 4 := by omega
    have h4' : ¬ (raw.drop 4).length < 4 := by
      rw [List.length_drop]
      omega
    simp only [settingsFromRaw, splitU32le, if_neg h4, if_neg h4']
    rw [if_pos (by rw [List.drop_drop, List.length_drop]; omega)]
    rw [if_neg]
    rw [List.drop_drop]
    exact hcrc
  · intro bytes hb hmiss h1 h2
    have hg : getAppInfo hw.settings p = .NoMissingSettings := by
      rw [getAppInfo_eq_some p hb, if_neg (by omega)]
      rcases hmiss with hmiss | hmiss
      · rw [hmiss]
        simp
      · rw [hmiss]
        cases hL : (lenVals (settingsIterList bytes)).head? <;> simp
    rw [isBootable, hg]

theorem isBootable_no_unsure_witness :
    isBootable testParams ⟨fun _ => 0xA5, [255, 255, 255, 255, 0, 0, 0, 0]⟩
        = Bootable.NoMissingSettings ∧
      settingsFromRaw [1, 2, 3] = none := by
  refine ⟨(isBootable_no_unsure testParams _).2.2.2.2.2 []
      (by decide) (Or.inl rfl) (by decide) (by decide),
    (isBootable_no_unsure testParams ⟨fun _ => 0, []⟩).2.2.1 [1, 2, 3] (by decide)⟩

end Squid
